import Mathlib

/-!
Verification of the llm-analyzer service of the media_rag_pipeline repository
(`services/llm-analyzer/app/main.py` and `app/db.py`).

The Python service is shallowly embedded: JSON values produced by the LLM
oracle are an inductive type `JValue`; Python-level primitive operations
(`dict.get`, chained `<=` comparisons, `float()`, pydantic field coercions)
are explicit `Except`-valued functions whose `.error` constructor models a
raised Python exception; SQLite tables are lists of row structures threaded
through the endpoint functions; the OpenAI oracle is a parameter holding the
outcome of `_call_openai_json` (after its retries): either a parsed JSON
value or an error.  Python floats are modelled as rationals.
-/

deriving instance DecidableEq for Except

/-- Constant `0.5`, the default confidence in the validators, written as a
raw rational so that kernel evaluation (`decide`) works on it. -/
def half : ℚ := ⟨1, 2, by decide, by decide⟩

-- ===========================================================================
-- § JSON values and the Python primitive operations the service applies to them
-- ===========================================================================

/-- A parsed JSON value, as returned by `json.loads` on the oracle response. -/
inductive JValue where
  | null
  | bool (b : Bool)
  | num (q : ℚ)
  | str (s : String)
  | arr (elems : List JValue)
  | obj (fields : List (String × JValue))

/-- `dict.get(key, default)` on a JSON object. `json.loads` keeps the last
binding for a duplicated key, hence the lookup on the reversed field list. -/
def jGet (fields : List (String × JValue)) (key : String) (default : JValue) : JValue :=
  match fields.reverse.find? (fun p => p.1 == key) with
  | some p => p.2
  | none => default

/-- The numeric value of a JSON value under Python's numeric comparisons:
numbers are themselves, booleans count as 0/1, everything else is non-numeric. -/
def pyNumVal : JValue → Option ℚ
  | .num q => some q
  | .bool b => some (if b then 1 else 0)
  | _ => none

/-- Python `a <= b`: defined between two numerics (int/float/bool) and between
two strings (lexicographic); any other combination raises `TypeError`. -/
def pyLe (a b : JValue) : Except String Bool :=
  match pyNumVal a, pyNumVal b with
  | some x, some y => .ok (decide (x ≤ y))
  | _, _ =>
    match a, b with
    | .str s, .str t => .ok (!(compare s t == Ordering.gt))
    | _, _ => .error "TypeError: comparison not supported between these types"

/-- Python chained comparison `a <= b <= c <= d`: evaluates left to right and
short-circuits on the first `False`, so a type error in a later link is only
raised when all earlier links held. -/
def pyChainLe4 (a b c d : JValue) : Except String Bool := do
  let r1 ← pyLe a b
  if !r1 then return false
  let r2 ← pyLe b c
  if !r2 then return false
  pyLe c d

/-- Python `float(v)`: numbers and booleans convert; `None`, lists and dicts
raise `TypeError`.  A numeric string would parse in Python; string parsing is
not modelled (strings map to `.error`) and no theorem below depends on a
string-valued confidence. -/
def pyFloat : JValue → Except String ℚ
  | .num q => .ok q
  | .bool b => .ok (if b then 1 else 0)
  | .str _ => .error "float parse of string (not modelled)"
  | _ => .error "TypeError: float() argument must be a string or a real number"

/-- Pydantic coercion of a JSON value into an `int` model field: ints and
integral floats are accepted, fractional floats and non-numbers (including
booleans, which pydantic v2 refuses for int fields) raise `ValidationError`. -/
def pyToInt : JValue → Except String Int
  | .num q => if q.den = 1 then .ok q.num else .error "ValidationError: integer expected"
  | _ => .error "ValidationError: integer expected"

/-- Pydantic coercion into a `str` model field: only strings are accepted. -/
def pyToStr : JValue → Except String String
  | .str s => .ok s
  | _ => .error "ValidationError: string expected"

/-- Pydantic coercion into a `str | None` model field. -/
def pyToOptStr : JValue → Except String (Option String)
  | .null => .ok none
  | .str s => .ok (some s)
  | _ => .error "ValidationError: string or None expected"

/-- Pydantic coercion into a `list[str]` model field: every element must be
a string. -/
def pyToStrList : List JValue → Except String (List String)
  | [] => .ok []
  | v :: rest => do
    let s ← pyToStr v
    let tail ← pyToStrList rest
    .ok (s :: tail)

/-- Python `for x in v`: lists iterate their elements, strings their
characters, dicts their keys; other values raise `TypeError`. -/
def pyIter : JValue → Except String (List JValue)
  | .arr xs => .ok xs
  | .str s => .ok (s.toList.map (fun c => .str c.toString))
  | .obj f => .ok (f.map (fun p => .str p.1))
  | _ => .error "TypeError: object is not iterable"

/-- `data.get(key, [])` where `data` is the oracle's parsed JSON response:
raises `AttributeError` when the response is not a dict. -/
def dataGet (data : JValue) (key : String) : Except String JValue :=
  match data with
  | .obj f => .ok (jGet f key (.arr []))
  | _ => .error "AttributeError: get"

-- ===========================================================================
-- § Pydantic models (schemas.py)
-- ===========================================================================

/-- `SegmentType = Literal["narrative", "qa"]`. -/
inductive SegType where
  | narrative
  | qa
deriving DecidableEq

/-- `Polarity = Literal["negative", "positive", "mixed", "unclear"]`. -/
inductive Polarity where
  | negative
  | positive
  | mixed
  | unclear
deriving DecidableEq

/-- Single utterance from Deepgram output (`Utterance`). -/
structure Utterance where
  u : Int
  start : ℚ
  «end» : ℚ
  text : String
deriving DecidableEq

/-- A single boundary segment (`BoundarySegment`). -/
structure BoundarySegment where
  type : SegType
  start_u : Int
  end_u : Int
  confidence : ℚ
  notes : Option String
deriving DecidableEq

/-- Range of utterance indices for a Q&A region (`QARange`). -/
structure QARange where
  start_u : Int
  end_u : Int
deriving DecidableEq

/-- A single semantic Q&A block (`QABlock`). -/
structure QABlock where
  start_u : Int
  end_u : Int
  questions : List String
  answer_summary : String
  confidence : ℚ
deriving DecidableEq

/-- Request for Pass 1 (`BoundaryRequest`). -/
structure BoundaryRequest where
  video_id : String
  utterances : List Utterance
deriving DecidableEq

/-- Response for Pass 1 (`BoundaryResponse`). -/
structure BoundaryResponse where
  video_id : String
  segments : List BoundarySegment
deriving DecidableEq

/-- Request for Pass 2 (`BlocksRequest`). -/
structure BlocksRequest where
  video_id : String
  utterances : List Utterance
  qa_range : QARange
deriving DecidableEq

/-- Response for Pass 2 (`BlocksResponse`). -/
structure BlocksResponse where
  video_id : String
  qa_blocks : List QABlock
deriving DecidableEq

/-- Request for the combined pipeline (`FullSegmentRequest`). -/
structure FullSegmentRequest where
  video_id : String
  utterances : List Utterance
deriving DecidableEq

/-- Stored boundary segment with timestamps (`StoredBoundarySegment`). -/
structure StoredBoundarySegment where
  seg_id : String
  type : SegType
  start_u : Int
  end_u : Int
  start : ℚ
  «end» : ℚ
  confidence : ℚ
  notes : Option String
  created_at : String
deriving DecidableEq

/-- Stored Q&A block with timestamps and assembled text (`StoredQABlock`). -/
structure StoredQABlock where
  block_id : String
  start_u : Int
  end_u : Int
  start : ℚ
  «end» : ℚ
  questions : List String
  answer_summary : String
  confidence : ℚ
  text : String
  created_at : String
deriving DecidableEq

/-- Response for `GET /segments/{video_id}` and `/segment/qa/run`
(`SegmentsResponse`). -/
structure SegmentsResponse where
  video_id : String
  boundary_segments : List StoredBoundarySegment
  qa_blocks : List StoredQABlock
deriving DecidableEq

/-- Request model for single opinion detection (`DetectRequest`). -/
structure DetectRequest where
  chunk_id : String
  start : ℚ
  «end» : ℚ
  text : String
  persons : List String
deriving DecidableEq

/-- Response model for opinion detection (`DetectResponse`). -/
structure DetectResponse where
  has_opinion : Bool
  targets : List String
  opinion_spans : List String
  polarity : Polarity
  confidence : ℚ
deriving DecidableEq

/-- Response model for batch opinion detection (`DetectBatchResponse`). -/
structure DetectBatchResponse where
  results : List DetectResponse
  total_with_opinions : Nat
deriving DecidableEq

-- ===========================================================================
-- § Interval validators (main.py `_validate_segments` / `_validate_blocks`)
-- ===========================================================================

/-- One iteration of the `_validate_segments` loop on one raw record `seg`:
`none` means the record was discarded by the bound check (logged, skipped),
`some` is the parsed segment appended to `validated`, `.error` is a raised
Python exception (`seg.get` on a non-dict, comparison `TypeError`, `float()`
failure, pydantic `ValidationError` on model construction). -/
def validateSegmentsStep (max_u : Int) (seg : JValue) : Except String (Option BoundarySegment) := do
  let fields ← match seg with
    | .obj f => Except.ok f
    | _ => Except.error "AttributeError: get"
  let start_u := jGet fields "start_u" (.num 0)
  let end_u := jGet fields "end_u" (.num 0)
  let inBounds ← pyChainLe4 (.num 0) start_u end_u (.num (max_u : ℚ))
  if !inBounds then
    return none
  let seg_type := match jGet fields "type" (.str "narrative") with
    | .str "narrative" => SegType.narrative
    | .str "qa" => SegType.qa
    | _ => SegType.narrative
  let conf ← pyFloat (jGet fields "confidence" (.num half))
  let confidence := min 1 (max 0 conf)
  let s ← pyToInt start_u
  let e ← pyToInt end_u
  let notes ← pyToOptStr (jGet fields "notes" .null)
  return some ⟨seg_type, s, e, confidence, notes⟩

/-- `_validate_segments(segments, max_u)`: validate and parse boundary
segments from LLM output, in the order received. -/
def validate_segments : List JValue → Int → Except String (List BoundarySegment)
  | [], _ => .ok []
  | seg :: rest, max_u => do
    let head ← validateSegmentsStep max_u seg
    let tail ← validate_segments rest max_u
    match head with
    | some b => .ok (b :: tail)
    | none => .ok tail

/-- One iteration of the `_validate_blocks` loop on one raw record. -/
def validateBlocksStep (qa_start qa_end : Int) (block : JValue) : Except String (Option QABlock) := do
  let fields ← match block with
    | .obj f => Except.ok f
    | _ => Except.error "AttributeError: get"
  let start_u := jGet fields "start_u" (.num (qa_start : ℚ))
  let end_u := jGet fields "end_u" (.num (qa_end : ℚ))
  let inBounds ← pyChainLe4 (.num (qa_start : ℚ)) start_u end_u (.num (qa_end : ℚ))
  if !inBounds then
    return none
  let conf ← pyFloat (jGet fields "confidence" (.num half))
  let confidence := min 1 (max 0 conf)
  let questions := match jGet fields "questions" (.arr []) with
    | .arr xs => xs
    | _ => []
  let qs ← pyToStrList questions
  let ans ← pyToStr (jGet fields "answer_summary" (.str ""))
  let s ← pyToInt start_u
  let e ← pyToInt end_u
  return some ⟨s, e, qs, ans, confidence⟩

/-- `_validate_blocks(blocks, qa_start, qa_end)`: validate and parse Q&A
blocks from LLM output, in the order received. -/
def validate_blocks : List JValue → Int → Int → Except String (List QABlock)
  | [], _, _ => .ok []
  | block :: rest, qa_start, qa_end => do
    let head ← validateBlocksStep qa_start qa_end block
    let tail ← validate_blocks rest qa_start qa_end
    match head with
    | some b => .ok (b :: tail)
    | none => .ok tail

-- ===========================================================================
-- § Persistence model (db.py)
--
-- SQLite tables are modelled as lists of row structures; the JSON-serialized
-- columns (`questions_json`, `persons_json`, ...) are modelled by their parsed
-- values, since `json.dumps`/`json.loads` round-trip them.
-- ===========================================================================

/-- Row of the `opinion_detection` table; `has_opinion` is stored as 0/1. -/
structure DetectionRow where
  chunk_id : String
  start : ℚ
  «end» : ℚ
  persons : List String
  has_opinion : Bool
  targets : List String
  opinion_spans : List String
  polarity : Polarity
  confidence : ℚ
  created_at : String
deriving DecidableEq

/-- Row of the `qa_boundary` table. -/
structure BoundaryRow where
  video_id : String
  seg_id : String
  type : SegType
  start_u : Int
  end_u : Int
  start : ℚ
  «end» : ℚ
  confidence : ℚ
  notes : Option String
  created_at : String
deriving DecidableEq

/-- Row of the `qa_block` table. -/
structure BlockRow where
  video_id : String
  block_id : String
  start_u : Int
  end_u : Int
  start : ℚ
  «end» : ℚ
  questions : List String
  answer_summary : String
  confidence : ℚ
  created_at : String
deriving DecidableEq

/-- Row of the `qa_export` table; the serialized export document is modelled
by its structured content. -/
structure ExportRow where
  video_id : String
  boundary_segments : List StoredBoundarySegment
  qa_blocks : List StoredQABlock
  created_at : String
deriving DecidableEq

/-- The analyzer SQLite database. -/
structure DB where
  opinion_detection : List DetectionRow
  qa_boundary : List BoundaryRow
  qa_block : List BlockRow
  qa_export : List ExportRow
deriving DecidableEq

/-- Generic INSERT ... ON CONFLICT(key) DO UPDATE over a list of rows. -/
def upsertRow (sameKey : α → Bool) (row : α) (rows : List α) : List α :=
  if rows.any sameKey then rows.map (fun r => if sameKey r then row else r)
  else rows ++ [row]

/-- `upsert_detection`, keyed by `chunk_id`. -/
def upsert_detection (row : DetectionRow) (db : DB) : DB :=
  { db with opinion_detection :=
      upsertRow (fun r => r.chunk_id == row.chunk_id) row db.opinion_detection }

/-- `upsert_boundary`, keyed by `(video_id, seg_id)`. -/
def upsert_boundary (row : BoundaryRow) (db : DB) : DB :=
  let sameKey := fun (r : BoundaryRow) => r.video_id == row.video_id && r.seg_id == row.seg_id
  { db with qa_boundary := upsertRow sameKey row db.qa_boundary }

/-- `upsert_block`, keyed by `(video_id, block_id)`. -/
def upsert_block (row : BlockRow) (db : DB) : DB :=
  let sameKey := fun (r : BlockRow) => r.video_id == row.video_id && r.block_id == row.block_id
  { db with qa_block := upsertRow sameKey row db.qa_block }

/-- `upsert_export`, keyed by `video_id`. -/
def upsert_export (row : ExportRow) (db : DB) : DB :=
  { db with qa_export :=
      upsertRow (fun r => r.video_id == row.video_id) row db.qa_export }

/-- `delete_boundaries(video_id)`. -/
def delete_boundaries (video_id : String) (db : DB) : DB :=
  { db with qa_boundary := db.qa_boundary.filter (fun r => !(r.video_id == video_id)) }

/-- `delete_blocks(video_id)`. -/
def delete_blocks (video_id : String) (db : DB) : DB :=
  { db with qa_block := db.qa_block.filter (fun r => !(r.video_id == video_id)) }

/-- Stable insertion used to model SQL `ORDER BY start_u`. -/
def orderInsert (key : α → Int) (r : α) : List α → List α
  | [] => [r]
  | x :: xs => if key x ≤ key r then x :: orderInsert key r xs else r :: x :: xs

/-- Stable sort by an integer key, modelling SQL `ORDER BY start_u`. -/
def orderByKey (key : α → Int) : List α → List α
  | [] => []
  | x :: xs => orderInsert key x (orderByKey key xs)

/-- `get_boundaries(video_id)`: all boundary rows of the video, ordered by
`start_u`. -/
def get_boundaries (video_id : String) (db : DB) : List BoundaryRow :=
  orderByKey (fun r => r.start_u) (db.qa_boundary.filter (fun r => r.video_id == video_id))

/-- `get_blocks(video_id)`: all block rows of the video, ordered by `start_u`. -/
def get_blocks (video_id : String) (db : DB) : List BlockRow :=
  orderByKey (fun r => r.start_u) (db.qa_block.filter (fun r => r.video_id == video_id))

/-- `get_detection(chunk_id)`: the stored detection row, if any. -/
def get_detection (chunk_id : String) (db : DB) : Option DetectionRow :=
  db.opinion_detection.find? (fun r => r.chunk_id == chunk_id)

-- ===========================================================================
-- § Q&A segmentation endpoints (main.py)
-- ===========================================================================

/-- `_get_utterance_by_index(utterances, idx)`: first utterance whose `u`
field equals `idx`. -/
def get_utterance_by_index (utterances : List Utterance) (idx : Int) : Option Utterance :=
  utterances.find? (fun u => u.u == idx)

/-- `_assemble_text(utterances, start_u, end_u)`: space-joined text of the
utterances whose index lies in `[start_u, end_u]`. -/
def assemble_text (utterances : List Utterance) (start_u end_u : Int) : String :=
  String.intercalate " "
    ((utterances.filter (fun u => decide (start_u ≤ u.u) && decide (u.u ≤ end_u))).map (fun u => u.text))

/-- `max(u.u for u in utterances)` (utterances non-empty at the call sites). -/
def maxU : List Utterance → Int
  | [] => 0
  | u :: rest => rest.foldl (fun m x => max m x.u) u.u

/-- Format `i` as in Python `f"{i:03d}"`. -/
def pad3 (n : Nat) : String :=
  if n < 10 then "00" ++ toString n
  else if n < 100 then "0" ++ toString n
  else toString n

/-- `f"seg_{i:03d}"`. -/
def segId (i : Nat) : String := "seg_" ++ pad3 i

/-- `f"qa_{i:03d}"`. -/
def blockId (i : Nat) : String := "qa_" ++ pad3 i

/-- The Pass 1 fallback segment built when validation yields nothing. -/
def fallbackBoundary (max_u : Int) : BoundarySegment :=
  ⟨SegType.narrative, 0, max_u, half, some "Fallback: entire transcript as narrative"⟩

/-- The Pass 2 fallback block built when validation yields nothing. -/
def fallbackBlock (qa_range : QARange) : QABlock :=
  ⟨qa_range.start_u, qa_range.end_u, [], "Fallback: entire Q&A region as one block", half⟩

/-- The `if not segments:` fallback of `segment_boundaries` (the coverage
repair of Pass 1). -/
def repairBoundaries (max_u : Int) (validated : List BoundarySegment) : List BoundarySegment :=
  if validated.isEmpty then [fallbackBoundary max_u] else validated

/-- The `if not blocks:` fallback of `segment_blocks` (the coverage repair of
Pass 2). -/
def repairBlocks (qa_range : QARange) (validated : List QABlock) : List QABlock :=
  if validated.isEmpty then [fallbackBlock qa_range] else validated

/-- `start_utt.start if start_utt else 0.0`: derived wall-clock start time of
a unit beginning at utterance index `idx`. -/
def lookupStart (utterances : List Utterance) (idx : Int) : ℚ :=
  match get_utterance_by_index utterances idx with
  | some u => u.start
  | none => 0

/-- `end_utt.end if end_utt else 0.0`: derived wall-clock end time of a unit
ending at utterance index `idx`. -/
def lookupEnd (utterances : List Utterance) (idx : Int) : ℚ :=
  match get_utterance_by_index utterances idx with
  | some u => u.«end»
  | none => 0

/-- The row `segment_boundaries` upserts for the `i`-th validated segment. -/
def mkBoundaryRow (video_id : String) (utterances : List Utterance) (now : String)
    (i : Nat) (seg : BoundarySegment) : BoundaryRow :=
  ⟨video_id, segId i, seg.type, seg.start_u, seg.end_u,
    lookupStart utterances seg.start_u, lookupEnd utterances seg.end_u,
    seg.confidence, seg.notes, now⟩

/-- The `for i, seg in enumerate(segments)` upsert loop of
`segment_boundaries`, starting at position `i`. -/
def insertBoundaries (video_id : String) (utterances : List Utterance) (now : String) :
    List BoundarySegment → Nat → DB → DB
  | [], _, db => db
  | seg :: rest, i, db =>
    insertBoundaries video_id utterances now rest (i + 1)
      (upsert_boundary (mkBoundaryRow video_id utterances now i seg) db)

/-- The response computation of `segment_boundaries`: everything the endpoint
does before its first database write (empty-input check, oracle call, JSON
field access, validation, coverage repair).  `oracle` is the outcome of
`_call_openai_json` after its retries; `.error` models a raised exception. -/
def segment_boundaries_result (oracle : Except String JValue)
    (req : BoundaryRequest) : Except String (List BoundarySegment) :=
  if req.utterances.isEmpty then .error "400: No utterances provided"
  else
    let max_u := maxU req.utterances
    match oracle with
    | .error e => .error ("502: LLM error: " ++ e)
    | .ok data =>
      match (do
          let raw ← dataGet data "segments"
          let items ← pyIter raw
          validate_segments items max_u : Except String (List BoundarySegment)) with
      | .error e => .error e
      | .ok validated => .ok (repairBoundaries max_u validated)

/-- `POST /segment/qa/boundaries` (`segment_boundaries`): compute the repaired
segments, then delete the video's prior boundary rows and insert the new ones.
Every raise in the source happens before the first database write, so an
error leaves the store unchanged. -/
def segment_boundaries (oracle : Except String JValue) (now : String)
    (req : BoundaryRequest) (db : DB) : Except String BoundaryResponse × DB :=
  match segment_boundaries_result oracle req with
  | .error e => (.error e, db)
  | .ok segments =>
    let db := delete_boundaries req.video_id db
    let db := insertBoundaries req.video_id req.utterances now segments 0 db
    (.ok ⟨req.video_id, segments⟩, db)

/-- The row `segment_blocks` upserts for the `i`-th validated block. -/
def mkBlockRow (video_id : String) (utterances : List Utterance) (now : String)
    (i : Nat) (block : QABlock) : BlockRow :=
  ⟨video_id, blockId i, block.start_u, block.end_u,
    lookupStart utterances block.start_u, lookupEnd utterances block.end_u,
    block.questions, block.answer_summary, block.confidence, now⟩

/-- The `for i, block in enumerate(blocks)` upsert loop of `segment_blocks`. -/
def insertBlocks (video_id : String) (utterances : List Utterance) (now : String) :
    List QABlock → Nat → DB → DB
  | [], _, db => db
  | block :: rest, i, db =>
    insertBlocks video_id utterances now rest (i + 1)
      (upsert_block (mkBlockRow video_id utterances now i block) db)

/-- The response computation of `segment_blocks`: everything the endpoint does
before its first database write. -/
def segment_blocks_result (oracle : Except String JValue)
    (req : BlocksRequest) : Except String (List QABlock) :=
  if req.utterances.isEmpty then .error "400: No utterances provided"
  else
    match oracle with
    | .error e => .error ("502: LLM error: " ++ e)
    | .ok data =>
      match (do
          let raw ← dataGet data "qa_blocks"
          let items ← pyIter raw
          validate_blocks items req.qa_range.start_u req.qa_range.end_u :
          Except String (List QABlock)) with
      | .error e => .error e
      | .ok validated => .ok (repairBlocks req.qa_range validated)

/-- `POST /segment/qa/blocks` (`segment_blocks`): compute the repaired blocks,
then delete ALL of the video's prior block rows and insert the new ones,
numbered `qa_000`, `qa_001`, ... from zero for this call. -/
def segment_blocks (oracle : Except String JValue) (now : String)
    (req : BlocksRequest) (db : DB) : Except String BlocksResponse × DB :=
  match segment_blocks_result oracle req with
  | .error e => (.error e, db)
  | .ok blocks =>
    let db := delete_blocks req.video_id db
    let db := insertBlocks req.video_id req.utterances now blocks 0 db
    (.ok ⟨req.video_id, blocks⟩, db)

/-- The globally renumbered `StoredQABlock` that `segment_full` builds for a
Pass 2 block at global position `i`: times derived from the full utterance
list, `text` by span-join. -/
def mkStoredBlock (utterances : List Utterance) (now : String) (i : Nat)
    (block : QABlock) : StoredQABlock :=
  ⟨blockId i, block.start_u, block.end_u,
    lookupStart utterances block.start_u, lookupEnd utterances block.end_u,
    block.questions, block.answer_summary, block.confidence,
    assemble_text utterances block.start_u block.end_u, now⟩

/-- The Q&A-region utterance subset `segment_full` slices for a qa segment:
the utterances whose index falls in `[seg.start_u, seg.end_u]`. -/
def qaUtterances (utterances : List Utterance) (seg : BoundarySegment) : List Utterance :=
  utterances.filter (fun u => decide (seg.start_u ≤ u.u) && decide (u.u ≤ seg.end_u))

/-- The Pass 2 request `segment_full` builds for a qa segment. -/
def mkBlocksRequest (video_id : String) (utterances : List Utterance)
    (seg : BoundarySegment) : BlocksRequest :=
  ⟨video_id, qaUtterances utterances seg, ⟨seg.start_u, seg.end_u⟩⟩

/-- The inner `for block in blocks_resp.qa_blocks` loop of `segment_full`:
turns Pass 2 blocks into globally renumbered `StoredQABlock`s starting at
`block_counter`. -/
def numberBlocks (utterances : List Utterance) (now : String) :
    Nat → List QABlock → List StoredQABlock
  | _, [] => []
  | block_counter, block :: rest =>
    mkStoredBlock utterances now block_counter block
      :: numberBlocks utterances now (block_counter + 1) rest

/-- The `for seg in boundary_resp.segments` loop of `segment_full`: runs Pass 2
on each qa segment with a non-empty utterance subset, skipping narrative
segments and (with the store as the failed call left it) segments whose Pass 2
call raised. -/
def segmentFullLoop (oracleBlocks : BlocksRequest → Except String JValue) (now : String)
    (video_id : String) (utterances : List Utterance) :
    List BoundarySegment → Nat → DB → List StoredQABlock × DB
  | [], _, db => ([], db)
  | seg :: rest, block_counter, db =>
    if seg.type ≠ SegType.qa then
      segmentFullLoop oracleBlocks now video_id utterances rest block_counter db
    else
      if (qaUtterances utterances seg).isEmpty then
        segmentFullLoop oracleBlocks now video_id utterances rest block_counter db
      else
        let blocks_req := mkBlocksRequest video_id utterances seg
        match segment_blocks (oracleBlocks blocks_req) now blocks_req db with
        | (.error _, db') =>
          segmentFullLoop oracleBlocks now video_id utterances rest block_counter db'
        | (.ok blocks_resp, db') =>
          let newStored := numberBlocks utterances now block_counter blocks_resp.qa_blocks
          let (tail, db'') := segmentFullLoop oracleBlocks now video_id utterances rest
            (block_counter + blocks_resp.qa_blocks.length) db'
          (newStored ++ tail, db'')

/-- The `for i, seg in enumerate(boundary_resp.segments)` loop of
`segment_full` building the returned stored boundary segments. -/
def mkStoredBoundaries (utterances : List Utterance) (now : String) :
    List BoundarySegment → Nat → List StoredBoundarySegment
  | [], _ => []
  | seg :: rest, i =>
    ⟨segId i, seg.type, seg.start_u, seg.end_u,
      lookupStart utterances seg.start_u, lookupEnd utterances seg.end_u,
      seg.confidence, seg.notes, now⟩
      :: mkStoredBoundaries utterances now rest (i + 1)

/-- `_build_and_save_export`: persists the export document (the JSON artifact
written to the exports directory is outside the store and not modelled). -/
def build_and_save_export (video_id : String) (boundaries : List StoredBoundarySegment)
    (blocks : List StoredQABlock) (now : String) (db : DB) : DB :=
  upsert_export ⟨video_id, boundaries, blocks, now⟩ db

/-- `POST /segment/qa/run` (`segment_full`): Pass 1, then Pass 2 per qa
segment, then global renumbering and export. -/
def segment_full (oracleB : Except String JValue)
    (oracleBlocks : BlocksRequest → Except String JValue) (now : String)
    (req : FullSegmentRequest) (db : DB) : Except String SegmentsResponse × DB :=
  match segment_boundaries oracleB now ⟨req.video_id, req.utterances⟩ db with
  | (.error e, db1) => (.error e, db1)
  | (.ok boundary_resp, db1) =>
    let (all_blocks, db2) :=
      segmentFullLoop oracleBlocks now req.video_id req.utterances boundary_resp.segments 0 db1
    let stored_boundaries := mkStoredBoundaries req.utterances now boundary_resp.segments 0
    let db3 := build_and_save_export req.video_id stored_boundaries all_blocks now db2
    (.ok ⟨req.video_id, stored_boundaries, all_blocks⟩, db3)

/-- `GET /segments/{video_id}` (`get_segments`): read back stored rows; the
`text` field of every returned block is the empty string. -/
def get_segments (video_id : String) (db : DB) : Except String SegmentsResponse :=
  let boundaries_data := get_boundaries video_id db
  let blocks_data := get_blocks video_id db
  if boundaries_data.isEmpty && blocks_data.isEmpty then
    .error ("404: No segments found for video: " ++ video_id)
  else
    .ok ⟨video_id,
      boundaries_data.map (fun b =>
        ⟨b.seg_id, b.type, b.start_u, b.end_u, b.start, b.«end», b.confidence, b.notes, b.created_at⟩),
      blocks_data.map (fun b =>
        ⟨b.block_id, b.start_u, b.end_u, b.start, b.«end», b.questions, b.answer_summary,
          b.confidence, "", b.created_at⟩)⟩

-- ===========================================================================
-- § Opinion detection endpoints (main.py)
-- ===========================================================================

/-- `MAX_TEXT_LENGTH` (default configuration value). -/
def MAX_TEXT_LENGTH : Nat := 4000

/-- The truncation applied inside `_detect_single` before prompting. -/
def truncateDetectReq (req : DetectRequest) : DetectRequest :=
  if req.text.length > MAX_TEXT_LENGTH then
    { req with text := req.text.take MAX_TEXT_LENGTH ++ "..." }
  else req

/-- `_detect_single`.  `oracle` models the `try` block (`_call_openai_json`
plus `DetectResponse(**data)` parsing): either a parsed, schema-valid response
or a raised exception, which degrades to the zero-confidence safe default. -/
def detect_single (oracle : DetectRequest → Except String DetectResponse)
    (req : DetectRequest) : DetectResponse :=
  if req.persons.isEmpty then
    ⟨false, [], [], Polarity.unclear, 1⟩
  else
    let req := truncateDetectReq req
    match oracle req with
    | .error _ => ⟨false, [], [], Polarity.unclear, 0⟩
    | .ok result =>
      let invalid_targets := result.targets.filter (fun t => !req.persons.contains t)
      if invalid_targets.isEmpty then result
      else { result with targets := result.targets.filter (fun t => req.persons.contains t) }

/-- The row `_persist_detection` upserts. -/
def mkDetectionRow (now : String) (req : DetectRequest) (result : DetectResponse) : DetectionRow :=
  ⟨req.chunk_id, req.start, req.«end», req.persons, result.has_opinion,
    result.targets, result.opinion_spans, result.polarity, result.confidence, now⟩

/-- `_persist_detection(req, result)`. -/
def persist_detection (now : String) (req : DetectRequest) (result : DetectResponse)
    (db : DB) : DB :=
  upsert_detection (mkDetectionRow now req result) db

/-- `POST /detect-opinion` (`detect_opinion`). -/
def detect_opinion (oracle : DetectRequest → Except String DetectResponse) (now : String)
    (req : DetectRequest) (db : DB) : DetectResponse × DB :=
  let result := detect_single oracle req
  (result, persist_detection now req result db)

/-- The `for item in req.items` loop of `detect_opinion_batch`: each item is
processed and persisted before the next is attempted. -/
def detectBatchLoop (oracle : DetectRequest → Except String DetectResponse) (now : String) :
    List DetectRequest → DB → List DetectResponse × DB
  | [], db => ([], db)
  | item :: rest, db =>
    let result := detect_single oracle item
    let db := persist_detection now item result db
    let (results, db') := detectBatchLoop oracle now rest db
    (result :: results, db')

/-- `POST /detect-opinion/batch` (`detect_opinion_batch`). -/
def detect_opinion_batch (oracle : DetectRequest → Except String DetectResponse)
    (now : String) (items : List DetectRequest) (db : DB) : DetectBatchResponse × DB :=
  let (results, db') := detectBatchLoop oracle now items db
  (⟨results, (results.filter (fun r => r.has_opinion)).length⟩, db')

-- ===========================================================================
-- § Auxiliary definitions used only in theorem statements
-- ===========================================================================

/-- The empty database. -/
def DB.empty : DB := ⟨[], [], [], []⟩

/-- Optional field lookup on a JSON object (present value, if any). -/
def jGetOpt (fields : List (String × JValue)) (key : String) : Option JValue :=
  (fields.reverse.find? (fun p => p.1 == key)).map (fun p => p.2)

/-- An absent field, or an integer-valued JSON number: the values of
`start_u`/`end_u` on which the validators are guaranteed not to raise. -/
def intFieldOk : Option JValue → Bool
  | none => true
  | some (.num q) => q.den == 1
  | some _ => false

/-- An absent field, or a number/boolean: confidence values on which
`float()` is guaranteed not to raise. -/
def confFieldOk : Option JValue → Bool
  | none => true
  | some (.num _) => true
  | some (.bool _) => true
  | some _ => false

/-- An absent field, `null`, or a string: `notes` values the pydantic model
accepts. -/
def noteFieldOk : Option JValue → Bool
  | none => true
  | some .null => true
  | some (.str _) => true
  | some _ => false

/-- An absent field, a non-list (coerced to `[]`), or a list of strings:
`questions` values the pydantic model accepts. -/
def questionsFieldOk : Option JValue → Bool
  | some (.arr xs) => xs.all (fun v => match v with | .str _ => true | _ => false)
  | _ => true

/-- An absent field or a string: `answer_summary` values the pydantic model
accepts. -/
def summaryFieldOk : Option JValue → Bool
  | none => true
  | some (.str _) => true
  | some _ => false

/-- A raw boundary-segment record on which `_validate_segments` is guaranteed
not to raise: a JSON object with well-typed `start_u`, `end_u`, `confidence`
and `notes` fields (a string-valued numeric confidence, excluded here, would
also be accepted by Python's `float()`). -/
def segRecordOk (v : JValue) : Bool :=
  match v with
  | .obj f =>
    intFieldOk (jGetOpt f "start_u") && intFieldOk (jGetOpt f "end_u")
      && confFieldOk (jGetOpt f "confidence") && noteFieldOk (jGetOpt f "notes")
  | _ => false

/-- A boundary segment whose processing by the orchestrator loop performs no
database write: it is not qa-typed, or its utterance subset is empty, or its
Pass 2 call raises before the first write. -/
def segWritesNothing (o : BlocksRequest → Except String JValue) (vid : String)
    (utts : List Utterance) (seg : BoundarySegment) : Prop :=
  seg.type ≠ SegType.qa ∨ (qaUtterances utts seg).isEmpty = true ∨
    ∃ e, segment_blocks_result (o (mkBlocksRequest vid utts seg))
      (mkBlocksRequest vid utts seg) = .error e

/-- A raw block record on which `_validate_blocks` is guaranteed not to
raise. -/
def blockRecordOk (v : JValue) : Bool :=
  match v with
  | .obj f =>
    intFieldOk (jGetOpt f "start_u") && intFieldOk (jGetOpt f "end_u")
      && confFieldOk (jGetOpt f "confidence") && questionsFieldOk (jGetOpt f "questions")
      && summaryFieldOk (jGetOpt f "answer_summary")
  | _ => false

-- ===========================================================================
-- § Theorems
-- ===========================================================================

-- sanity checks on small concrete inputs
example : validate_segments [.obj [("start_u", .num 0), ("end_u", .num 3),
    ("type", .str "qa"), ("confidence", .num 2)]] 5 =
    .ok [⟨.qa, 0, 3, 1, none⟩] := by decide

example : validate_segments [.obj [("start_u", .num 2), ("end_u", .num 9)]] 5 =
    .ok [] := by decide

example : validate_segments [.str "x"] 5 = .error "AttributeError: get" := by decide

example : validate_blocks [.obj [("confidence", .num (-3)),
    ("answer_summary", .str "s")]] 2 4 = .ok [⟨2, 4, [], "s", 0⟩] := by decide

/-- Bind on `Except` reduces on `ok`. -/
theorem except_bind_ok {α β ε} (a : α) (f : α → Except ε β) :
    (Except.ok a >>= f) = f a := rfl

/-- Bind on `Except` short-circuits on `error`. -/
theorem except_bind_error {α β ε} (e : ε) (f : α → Except ε β) :
    ((Except.error e : Except ε α) >>= f) = Except.error e := rfl

/-- `pure` on `Except` is `ok`. -/
theorem except_pure_eq {α ε} (a : α) : (pure a : Except ε α) = Except.ok a := rfl

attribute [simp] except_bind_ok except_bind_error except_pure_eq

/-- `half` is one half. -/
theorem half_eq : half = 1 / 2 := by
  have h := Rat.num_div_den half
  rw [show half.num = 1 from rfl, show half.den = 2 from rfl] at h
  simpa using h.symm

/-- A numeric-vs-numeric Python comparison reduces to the rational order. -/
theorem pyLe_num_num (x y : ℚ) : pyLe (.num x) (.num y) = .ok (decide (x ≤ y)) := rfl

/-- A true numeric comparison yields the rational inequality. -/
theorem pyLe_num_true {x y : ℚ} (h : pyLe (.num x) (.num y) = .ok true) : x ≤ y := by
  simp [pyLe, pyNumVal] at h
  exact h

/-- Inversion of a successful chained comparison: each link held. -/
theorem pyChainLe4_true {a b c d : JValue} (h : pyChainLe4 a b c d = .ok true) :
    pyLe a b = .ok true ∧ pyLe b c = .ok true ∧ pyLe c d = .ok true := by
  unfold pyChainLe4 at h
  cases h1 : pyLe a b with
  | error e => rw [h1] at h; simp at h
  | ok r1 =>
    rw [h1] at h
    cases r1 with
    | false => simp at h
    | true =>
      simp at h
      cases h2 : pyLe b c with
      | error e => rw [h2] at h; simp at h
      | ok r2 =>
        rw [h2] at h
        cases r2 with
        | false => simp at h
        | true => simp at h; exact ⟨rfl, rfl, h⟩

/-- Inversion of a successful pydantic int coercion. -/
theorem pyToInt_ok {v : JValue} {n : Int} (h : pyToInt v = .ok n) :
    ∃ q : ℚ, v = .num q ∧ q.den = 1 ∧ q.num = n := by
  cases v with
  | num q =>
    by_cases hq : q.den = 1
    · refine ⟨q, rfl, hq, ?_⟩
      simp [pyToInt, hq] at h
      exact h
    · simp [pyToInt, hq] at h
  | null => simp [pyToInt] at h
  | bool b => simp [pyToInt] at h
  | str s => simp [pyToInt] at h
  | arr xs => simp [pyToInt] at h
  | obj f => simp [pyToInt] at h

/-- An integer-valued rational's numerator respects the order. -/
theorem ratNum_le_of_le {q r : ℚ} (hq : q.den = 1) (hr : r.den = 1) (h : q ≤ r) :
    q.num ≤ r.num := by
  have hq' : (q.num : ℚ) = q := by exact_mod_cast (Rat.den_eq_one_iff q).mp hq
  have hr' : (r.num : ℚ) = r := by exact_mod_cast (Rat.den_eq_one_iff r).mp hr
  have : (q.num : ℚ) ≤ (r.num : ℚ) := by rw [hq', hr']; exact h
  exact_mod_cast this

/-- Bounds extracted from a parsed boundary segment: the chained comparison
admitted it, so its indices satisfy `0 ≤ start_u ≤ end_u ≤ max_u`. -/
theorem validateSegmentsStep_bounds {max_u : Int} {seg : JValue} {b : BoundarySegment}
    (h : validateSegmentsStep max_u seg = .ok (some b)) :
    0 ≤ b.start_u ∧ b.start_u ≤ b.end_u ∧ b.end_u ≤ max_u := by
  unfold validateSegmentsStep at h
  cases seg with
  | obj f =>
    simp only [except_bind_ok] at h
    cases hch : pyChainLe4 (.num 0) (jGet f "start_u" (.num 0)) (jGet f "end_u" (.num 0))
        (.num (max_u : ℚ)) with
    | error e => rw [hch] at h; simp at h
    | ok inBounds =>
      rw [hch] at h
      cases inBounds with
      | false => simp at h
      | true =>
        simp only [except_bind_ok, Bool.not_true, Bool.false_eq_true, if_false] at h
        cases hc : pyFloat (jGet f "confidence" (.num half)) with
        | error e => rw [hc] at h; simp at h
        | ok conf =>
          rw [hc] at h
          simp only [except_bind_ok] at h
          cases hs : pyToInt (jGet f "start_u" (.num 0)) with
          | error e => rw [hs] at h; simp at h
          | ok s =>
            rw [hs] at h
            simp only [except_bind_ok] at h
            cases he : pyToInt (jGet f "end_u" (.num 0)) with
            | error e => rw [he] at h; simp at h
            | ok e =>
              rw [he] at h
              simp only [except_bind_ok] at h
              cases hn : pyToOptStr (jGet f "notes" .null) with
              | error e2 => rw [hn] at h; simp at h
              | ok notes =>
                rw [hn] at h
                simp only [except_pure_eq, except_bind_ok, Except.ok.injEq,
                  Option.some.injEq] at h
                obtain ⟨q, hqv, hqden, hqnum⟩ := pyToInt_ok hs
                obtain ⟨r, hrv, hrden, hrnum⟩ := pyToInt_ok he
                obtain ⟨h01, h12, h23⟩ := pyChainLe4_true hch
                rw [hqv] at h01 h12
                rw [hrv] at h12 h23
                have hx0 : (0 : ℚ) ≤ q := pyLe_num_true h01
                have hx1 : q ≤ r := pyLe_num_true h12
                have hx2 : r ≤ (max_u : ℚ) := pyLe_num_true h23
                have hbs : b.start_u = s := by rw [← h]
                have hbe : b.end_u = e := by rw [← h]
                refine ⟨?_, ?_, ?_⟩
                · rw [hbs, ← hqnum]
                  exact Rat.num_nonneg.mpr hx0
                · rw [hbs, hbe, ← hqnum, ← hrnum]
                  exact ratNum_le_of_le hqden hrden hx1
                · rw [hbe, ← hrnum]
                  have : r.num ≤ ((max_u : ℚ)).num := by
                    refine ratNum_le_of_le hrden ?_ hx2
                    exact Rat.den_intCast max_u
                  simpa using this
  | null => simp at h
  | bool b2 => simp at h
  | num q => simp at h
  | str s => simp at h
  | arr xs => simp at h

/-- Bounds extracted from a parsed Q&A block: the chained comparison admitted
it, so its indices satisfy `qa_start ≤ start_u ≤ end_u ≤ qa_end`. -/
theorem validateBlocksStep_bounds {qa_start qa_end : Int} {block : JValue} {b : QABlock}
    (h : validateBlocksStep qa_start qa_end block = .ok (some b)) :
    qa_start ≤ b.start_u ∧ b.start_u ≤ b.end_u ∧ b.end_u ≤ qa_end := by
  unfold validateBlocksStep at h
  cases block with
  | obj f =>
    simp only [except_bind_ok] at h
    cases hch : pyChainLe4 (.num (qa_start : ℚ)) (jGet f "start_u" (.num (qa_start : ℚ)))
        (jGet f "end_u" (.num (qa_end : ℚ))) (.num (qa_end : ℚ)) with
    | error e => rw [hch] at h; simp at h
    | ok inBounds =>
      rw [hch] at h
      cases inBounds with
      | false => simp at h
      | true =>
        simp only [except_bind_ok, Bool.not_true, Bool.false_eq_true, if_false] at h
        cases hc : pyFloat (jGet f "confidence" (.num half)) with
        | error e => rw [hc] at h; simp at h
        | ok conf =>
          rw [hc] at h
          simp only [except_bind_ok] at h
          cases hq : pyToStrList (match jGet f "questions" (.arr []) with
              | .arr xs => xs
              | _ => []) with
          | error e => rw [hq] at h; simp at h
          | ok qs =>
            rw [hq] at h
            simp only [except_bind_ok] at h
            cases ha : pyToStr (jGet f "answer_summary" (.str "")) with
            | error e => rw [ha] at h; simp at h
            | ok ans =>
              rw [ha] at h
              simp only [except_bind_ok] at h
              cases hs : pyToInt (jGet f "start_u" (.num (qa_start : ℚ))) with
              | error e => rw [hs] at h; simp at h
              | ok s =>
                rw [hs] at h
                simp only [except_bind_ok] at h
                cases he : pyToInt (jGet f "end_u" (.num (qa_end : ℚ))) with
                | error e => rw [he] at h; simp at h
                | ok e =>
                  rw [he] at h
                  simp only [except_pure_eq, except_bind_ok, Except.ok.injEq,
                    Option.some.injEq] at h
                  obtain ⟨q, hqv, hqden, hqnum⟩ := pyToInt_ok hs
                  obtain ⟨r, hrv, hrden, hrnum⟩ := pyToInt_ok he
                  obtain ⟨h01, h12, h23⟩ := pyChainLe4_true hch
                  rw [hqv] at h01 h12
                  rw [hrv] at h12 h23
                  have hx0 : (qa_start : ℚ) ≤ q := pyLe_num_true h01
                  have hx1 : q ≤ r := pyLe_num_true h12
                  have hx2 : r ≤ (qa_end : ℚ) := pyLe_num_true h23
                  have hbs : b.start_u = s := by rw [← h]
                  have hbe : b.end_u = e := by rw [← h]
                  refine ⟨?_, ?_, ?_⟩
                  · rw [hbs, ← hqnum]
                    have : ((qa_start : ℚ)).num ≤ q.num :=
                      ratNum_le_of_le (Rat.den_intCast qa_start) hqden hx0
                    simpa using this
                  · rw [hbs, hbe, ← hqnum, ← hrnum]
                    exact ratNum_le_of_le hqden hrden hx1
                  · rw [hbe, ← hrnum]
                    have : r.num ≤ ((qa_end : ℚ)).num :=
                      ratNum_le_of_le hrden (Rat.den_intCast qa_end) hx2
                    simpa using this
  | null => simp at h
  | bool b2 => simp at h
  | num q => simp at h
  | str s => simp at h
  | arr xs => simp at h

/-- Inversion of one step of the `_validate_segments` loop. -/
theorem validate_segments_cons {seg : JValue} {rest : List JValue} {max_u : Int}
    {l : List BoundarySegment} (h : validate_segments (seg :: rest) max_u = .ok l) :
    ∃ hd tl, validateSegmentsStep max_u seg = .ok hd ∧ validate_segments rest max_u = .ok tl ∧
      l = (match hd with | some b => b :: tl | none => tl) := by
  unfold validate_segments at h
  cases h1 : validateSegmentsStep max_u seg with
  | error e => rw [h1] at h; simp at h
  | ok hd =>
    rw [h1] at h
    simp only [except_bind_ok] at h
    cases h2 : validate_segments rest max_u with
    | error e => rw [h2] at h; simp at h
    | ok tl =>
      rw [h2] at h
      simp only [except_bind_ok] at h
      cases hd with
      | some b =>
        simp only [Except.ok.injEq] at h
        exact ⟨some b, tl, rfl, rfl, h.symm⟩
      | none =>
        simp only [Except.ok.injEq] at h
        exact ⟨none, tl, rfl, rfl, h.symm⟩

/-- Inversion of one step of the `_validate_blocks` loop. -/
theorem validate_blocks_cons {block : JValue} {rest : List JValue} {qa_start qa_end : Int}
    {l : List QABlock} (h : validate_blocks (block :: rest) qa_start qa_end = .ok l) :
    ∃ hd tl, validateBlocksStep qa_start qa_end block = .ok hd ∧
      validate_blocks rest qa_start qa_end = .ok tl ∧
      l = (match hd with | some b => b :: tl | none => tl) := by
  unfold validate_blocks at h
  cases h1 : validateBlocksStep qa_start qa_end block with
  | error e => rw [h1] at h; simp at h
  | ok hd =>
    rw [h1] at h
    simp only [except_bind_ok] at h
    cases h2 : validate_blocks rest qa_start qa_end with
    | error e => rw [h2] at h; simp at h
    | ok tl =>
      rw [h2] at h
      simp only [except_bind_ok] at h
      cases hd with
      | some b =>
        simp only [Except.ok.injEq] at h
        exact ⟨some b, tl, rfl, rfl, h.symm⟩
      | none =>
        simp only [Except.ok.injEq] at h
        exact ⟨none, tl, rfl, rfl, h.symm⟩

/-- Every segment `_validate_segments` emits satisfies the bound check. -/
theorem validate_segments_sound (segments : List JValue) (max_u : Int)
    (l : List BoundarySegment) (h : validate_segments segments max_u = .ok l) :
    ∀ s ∈ l, 0 ≤ s.start_u ∧ s.start_u ≤ s.end_u ∧ s.end_u ≤ max_u := by
  induction segments generalizing l with
  | nil =>
    unfold validate_segments at h
    simp only [Except.ok.injEq] at h
    subst h
    intro s hs
    cases hs
  | cons seg rest ih =>
    obtain ⟨hd, tl, h1, h2, h3⟩ := validate_segments_cons h
    intro s hs
    cases hd with
    | some b =>
      simp only at h3
      subst h3
      rcases List.mem_cons.mp hs with hsb | hstl
      · subst hsb
        exact validateSegmentsStep_bounds h1
      · exact ih tl h2 s hstl
    | none =>
      simp only at h3
      subst h3
      exact ih _ h2 s hs

/-- Every block `_validate_blocks` emits satisfies the bound check. -/
theorem validate_blocks_sound (blocks : List JValue) (qa_start qa_end : Int)
    (l : List QABlock) (h : validate_blocks blocks qa_start qa_end = .ok l) :
    ∀ b ∈ l, qa_start ≤ b.start_u ∧ b.start_u ≤ b.end_u ∧ b.end_u ≤ qa_end := by
  induction blocks generalizing l with
  | nil =>
    unfold validate_blocks at h
    simp only [Except.ok.injEq] at h
    subst h
    intro b hb
    cases hb
  | cons block rest ih =>
    obtain ⟨hd, tl, h1, h2, h3⟩ := validate_blocks_cons h
    intro b hb
    cases hd with
    | some b2 =>
      simp only at h3
      subst h3
      rcases List.mem_cons.mp hb with hbb | hbtl
      · subst hbb
        exact validateBlocksStep_bounds h1
      · exact ih tl h2 b hbtl
    | none =>
      simp only at h3
      subst h3
      exact ih _ h2 b hb

/-- C3. Bound-safety: whenever the validators return, every boundary segment
in the output satisfies `0 ≤ start_u ≤ end_u ≤ max_u` and every block
satisfies `qa_start ≤ start_u ≤ end_u ≤ qa_end`; a raw record violating these
bounds is discarded, never emitted, whatever the oracle returned. -/
theorem validator_bound_safety :
    (∀ (segments : List JValue) (max_u : Int) (l : List BoundarySegment),
      validate_segments segments max_u = .ok l →
      ∀ s ∈ l, 0 ≤ s.start_u ∧ s.start_u ≤ s.end_u ∧ s.end_u ≤ max_u) ∧
    (∀ (blocks : List JValue) (qa_start qa_end : Int) (l : List QABlock),
      validate_blocks blocks qa_start qa_end = .ok l →
      ∀ b ∈ l, qa_start ≤ b.start_u ∧ b.start_u ≤ b.end_u ∧ b.end_u ≤ qa_end) :=
  ⟨validate_segments_sound, validate_blocks_sound⟩

/-- Witness for C3 at a concrete garbage oracle output: an out-of-bounds
segment and an inverted block are discarded, the valid units keep bounds. -/
theorem validator_bound_safety_witness :
    (0 : Int) ≤ 1 ∧ (1 : Int) ≤ 4 ∧ (4 : Int) ≤ 5 :=
  validator_bound_safety.1
    [.obj [("start_u", .num 1), ("end_u", .num 4)],
     .obj [("start_u", .num 3), ("end_u", .num 9)]] 5
    [⟨.narrative, 1, 4, half, none⟩] (by decide)
    ⟨.narrative, 1, 4, half, none⟩ (by decide)

/-- `dict.get` through the optional-field view. -/
theorem jGet_eq_getD (f : List (String × JValue)) (key : String) (d : JValue) :
    jGet f key d = (jGetOpt f key).getD d := by
  unfold jGet jGetOpt
  cases h : f.reverse.find? (fun p => p.1 == key) <;> simp [h]

/-- A well-typed index field is an integral number (or the integral default). -/
theorem intFieldOk_get {f : List (String × JValue)} {key : String} (d : ℚ) (hd : d.den = 1)
    (h : intFieldOk (jGetOpt f key) = true) :
    ∃ q : ℚ, jGet f key (.num d) = .num q ∧ q.den = 1 := by
  rw [jGet_eq_getD]
  cases hopt : jGetOpt f key with
  | none => exact ⟨d, rfl, hd⟩
  | some v =>
    rw [hopt] at h
    cases v with
    | num q =>
      refine ⟨q, rfl, ?_⟩
      simpa [intFieldOk] using h
    | null => simp [intFieldOk] at h
    | bool b => simp [intFieldOk] at h
    | str s => simp [intFieldOk] at h
    | arr xs => simp [intFieldOk] at h
    | obj g => simp [intFieldOk] at h

/-- A well-typed confidence field survives `float()`. -/
theorem pyFloat_confFieldOk {f : List (String × JValue)}
    (h : confFieldOk (jGetOpt f "confidence") = true) :
    ∃ c, pyFloat (jGet f "confidence" (.num half)) = .ok c := by
  rw [jGet_eq_getD]
  cases hopt : jGetOpt f "confidence" with
  | none => exact ⟨half, rfl⟩
  | some v =>
    rw [hopt] at h
    cases v with
    | num q => exact ⟨q, rfl⟩
    | bool b => exact ⟨if b then 1 else 0, rfl⟩
    | null => simp [confFieldOk] at h
    | str s => simp [confFieldOk] at h
    | arr xs => simp [confFieldOk] at h
    | obj g => simp [confFieldOk] at h

/-- A well-typed notes field survives the pydantic `str | None` coercion. -/
theorem pyToOptStr_noteFieldOk {f : List (String × JValue)}
    (h : noteFieldOk (jGetOpt f "notes") = true) :
    ∃ n, pyToOptStr (jGet f "notes" .null) = .ok n := by
  rw [jGet_eq_getD]
  cases hopt : jGetOpt f "notes" with
  | none => exact ⟨none, rfl⟩
  | some v =>
    rw [hopt] at h
    cases v with
    | null => exact ⟨none, rfl⟩
    | str s => exact ⟨some s, rfl⟩
    | num q => simp [noteFieldOk] at h
    | bool b => simp [noteFieldOk] at h
    | arr xs => simp [noteFieldOk] at h
    | obj g => simp [noteFieldOk] at h

/-- A list of string values survives the pydantic `list[str]` coercion. -/
theorem pyToStrList_total {xs : List JValue}
    (h : xs.all (fun v => match v with | .str _ => true | _ => false) = true) :
    ∃ l, pyToStrList xs = .ok l := by
  induction xs with
  | nil => exact ⟨[], rfl⟩
  | cons v rest ih =>
    simp only [List.all_cons, Bool.and_eq_true] at h
    obtain ⟨hv, hrest⟩ := h
    obtain ⟨l, hl⟩ := ih hrest
    cases v with
    | str s =>
      refine ⟨s :: l, ?_⟩
      simp [pyToStrList, pyToStr, hl]
    | null => simp at hv
    | bool b => simp at hv
    | num q => simp at hv
    | arr ys => simp at hv
    | obj g => simp at hv

/-- A well-typed questions field survives extraction plus coercion. -/
theorem questionsFieldOk_get {f : List (String × JValue)}
    (h : questionsFieldOk (jGetOpt f "questions") = true) :
    ∃ l, pyToStrList (match jGet f "questions" (.arr []) with
      | .arr xs => xs
      | _ => []) = .ok l := by
  rw [jGet_eq_getD]
  cases hopt : jGetOpt f "questions" with
  | none => exact ⟨[], rfl⟩
  | some v =>
    rw [hopt] at h
    cases v with
    | arr xs =>
      simp only [questionsFieldOk] at h
      simpa using pyToStrList_total h
    | null => exact ⟨[], rfl⟩
    | bool b => exact ⟨[], rfl⟩
    | num q => exact ⟨[], rfl⟩
    | str s => exact ⟨[], rfl⟩
    | obj g => exact ⟨[], rfl⟩

/-- A well-typed answer summary survives the pydantic `str` coercion. -/
theorem pyToStr_summaryFieldOk {f : List (String × JValue)}
    (h : summaryFieldOk (jGetOpt f "answer_summary") = true) :
    ∃ s, pyToStr (jGet f "answer_summary" (.str "")) = .ok s := by
  rw [jGet_eq_getD]
  cases hopt : jGetOpt f "answer_summary" with
  | none => exact ⟨"", rfl⟩
  | some v =>
    rw [hopt] at h
    cases v with
    | str s => exact ⟨s, rfl⟩
    | null => simp [summaryFieldOk] at h
    | bool b => simp [summaryFieldOk] at h
    | num q => simp [summaryFieldOk] at h
    | arr xs => simp [summaryFieldOk] at h
    | obj g => simp [summaryFieldOk] at h

/-- A chained comparison between four numbers never raises. -/
theorem pyChainLe4_num_total (w x y z : ℚ) :
    ∃ r, pyChainLe4 (.num w) (.num x) (.num y) (.num z) = .ok r := by
  by_cases h1 : w ≤ x
  · by_cases h2 : x ≤ y
    · exact ⟨decide (y ≤ z), by simp [pyChainLe4, pyLe_num_num, h1, h2]⟩
    · exact ⟨false, by simp [pyChainLe4, pyLe_num_num, h1, h2]⟩
  · exact ⟨false, by simp [pyChainLe4, pyLe_num_num, h1]⟩

/-- `_validate_segments` does not raise on a well-typed record. -/
theorem validateSegmentsStep_total (max_u : Int) {v : JValue} (hv : segRecordOk v = true) :
    ∃ r, validateSegmentsStep max_u v = .ok r := by
  cases v with
  | obj f =>
    simp only [segRecordOk, Bool.and_eq_true] at hv
    obtain ⟨⟨⟨hsf, hef⟩, hcf⟩, hnf⟩ := hv
    obtain ⟨q, hq, hqden⟩ := intFieldOk_get 0 (by decide) hsf
    obtain ⟨r, hr, hrden⟩ := intFieldOk_get 0 (by decide) hef
    obtain ⟨c, hcok⟩ := pyFloat_confFieldOk hcf
    obtain ⟨nt, hnok⟩ := pyToOptStr_noteFieldOk hnf
    obtain ⟨bb, hbb⟩ := pyChainLe4_num_total 0 q r (max_u : ℚ)
    unfold validateSegmentsStep
    simp only [except_bind_ok]
    rw [hq, hr, hbb]
    cases bb with
    | false => exact ⟨none, rfl⟩
    | true =>
      simp only [except_bind_ok, Bool.not_true, Bool.false_eq_true, if_false]
      rw [hcok]
      simp [pyToInt, hqden, hrden, hnok]
  | null => simp [segRecordOk] at hv
  | bool b => simp [segRecordOk] at hv
  | num q => simp [segRecordOk] at hv
  | str s => simp [segRecordOk] at hv
  | arr xs => simp [segRecordOk] at hv

/-- `_validate_blocks` does not raise on a well-typed record. -/
theorem validateBlocksStep_total (qa_start qa_end : Int) {v : JValue}
    (hv : blockRecordOk v = true) :
    ∃ r, validateBlocksStep qa_start qa_end v = .ok r := by
  cases v with
  | obj f =>
    simp only [blockRecordOk, Bool.and_eq_true] at hv
    obtain ⟨⟨⟨⟨hsf, hef⟩, hcf⟩, hqf⟩, haf⟩ := hv
    obtain ⟨q, hq, hqden⟩ := intFieldOk_get ((qa_start : ℚ)) (Rat.den_intCast qa_start) hsf
    obtain ⟨r, hr, hrden⟩ := intFieldOk_get ((qa_end : ℚ)) (Rat.den_intCast qa_end) hef
    obtain ⟨c, hcok⟩ := pyFloat_confFieldOk hcf
    obtain ⟨qs, hqsok⟩ := questionsFieldOk_get hqf
    obtain ⟨ans, hansok⟩ := pyToStr_summaryFieldOk haf
    obtain ⟨bb, hbb⟩ := pyChainLe4_num_total (qa_start : ℚ) q r (qa_end : ℚ)
    unfold validateBlocksStep
    simp only [except_bind_ok]
    rw [hq, hr, hbb]
    cases bb with
    | false => exact ⟨none, rfl⟩
    | true =>
      simp only [except_bind_ok, Bool.not_true, Bool.false_eq_true, if_false]
      rw [hcok]
      simp [pyToInt, hqden, hrden, hqsok, hansok]
  | null => simp [blockRecordOk] at hv
  | bool b => simp [blockRecordOk] at hv
  | num q => simp [blockRecordOk] at hv
  | str s => simp [blockRecordOk] at hv
  | arr xs => simp [blockRecordOk] at hv

/-- `_validate_segments` returns a list on any list of well-typed records. -/
theorem validate_segments_total (segments : List JValue) (max_u : Int)
    (h : ∀ v ∈ segments, segRecordOk v = true) :
    ∃ l, validate_segments segments max_u = .ok l := by
  induction segments with
  | nil => exact ⟨[], rfl⟩
  | cons v rest ih =>
    obtain ⟨hd, hhd⟩ := validateSegmentsStep_total max_u (h v (List.mem_cons_self v rest))
    obtain ⟨tl, htl⟩ := ih (fun w hw => h w (List.mem_cons_of_mem v hw))
    cases hd with
    | some b =>
      refine ⟨b :: tl, ?_⟩
      unfold validate_segments
      rw [hhd]
      simp only [except_bind_ok]
      rw [htl]
      simp
    | none =>
      refine ⟨tl, ?_⟩
      unfold validate_segments
      rw [hhd]
      simp only [except_bind_ok]
      rw [htl]
      simp

/-- `_validate_blocks` returns a list on any list of well-typed records. -/
theorem validate_blocks_total (blocks : List JValue) (qa_start qa_end : Int)
    (h : ∀ v ∈ blocks, blockRecordOk v = true) :
    ∃ l, validate_blocks blocks qa_start qa_end = .ok l := by
  induction blocks with
  | nil => exact ⟨[], rfl⟩
  | cons v rest ih =>
    obtain ⟨hd, hhd⟩ := validateBlocksStep_total qa_start qa_end (h v (List.mem_cons_self v rest))
    obtain ⟨tl, htl⟩ := ih (fun w hw => h w (List.mem_cons_of_mem v hw))
    cases hd with
    | some b =>
      refine ⟨b :: tl, ?_⟩
      unfold validate_blocks
      rw [hhd]
      simp only [except_bind_ok]
      rw [htl]
      simp
    | none =>
      refine ⟨tl, ?_⟩
      unfold validate_blocks
      rw [hhd]
      simp only [except_bind_ok]
      rw [htl]
      simp

/-- C2 counterexample: the validators CAN raise.  A record whose `confidence`
is JSON `null` makes `_validate_segments` raise `TypeError` inside `float()`,
and a block whose `questions` list contains a number makes `_validate_blocks`
raise a pydantic `ValidationError` — both inputs are plain JSON values of the
kind the claim ranges over, yet no list is returned. -/
theorem validator_never_throws_cex :
    validate_segments [.obj [("confidence", .null)]] 0 =
      .error "TypeError: float() argument must be a string or a real number" ∧
    validate_blocks [.obj [("questions", .arr [.num 1]), ("confidence", .num 1)]] 0 0 =
      .error "ValidationError: string expected" := by
  constructor <;> decide

/-- C2 (amended). The validators never raise PROVIDED every record is a JSON
object whose `start_u`/`end_u` are absent or integer-valued numbers, whose
`confidence` is absent, numeric or boolean, and whose remaining model fields
are well-typed (`notes` null/string for segments; `questions` a list of
strings or a non-list, `answer_summary` a string, for blocks); on such input
they return a (possibly empty) list for every index range.  On other JSON
values they can raise, as the counterexample shows. -/
theorem validator_never_throws_amended :
    (∀ (segments : List JValue) (max_u : Int),
      (∀ v ∈ segments, segRecordOk v = true) →
      ∃ l, validate_segments segments max_u = .ok l) ∧
    (∀ (blocks : List JValue) (qa_start qa_end : Int),
      (∀ v ∈ blocks, blockRecordOk v = true) →
      ∃ l, validate_blocks blocks qa_start qa_end = .ok l) :=
  ⟨validate_segments_total, validate_blocks_total⟩

/-- Witness for C2 (amended) on a concrete well-typed response. -/
theorem validator_never_throws_amended_witness :
    ∃ l, validate_segments
      [.obj [("start_u", .num 1), ("end_u", .num 2), ("confidence", .num 3)],
       .obj [("type", .str "qa")]] 7 = .ok l :=
  validator_never_throws_amended.1
    [.obj [("start_u", .num 1), ("end_u", .num 2), ("confidence", .num 3)],
     .obj [("type", .str "qa")]] 7 (by decide)

/-- C1 counterexample: the claim's universal quantification over oracle
responses fails.  For the response `{"segments": ["x"]}` — a perfectly
possible JSON reply — `validate` raises (`"x".get` is an `AttributeError`),
so `validate → repair` yields no sequence at all: the boundary endpoint
propagates the error instead of producing the fallback segment. -/
theorem coverage_or_fallback_cex :
    segment_boundaries (.ok (.obj [("segments", .arr [.str "x"])])) "t"
      ⟨"v", [⟨0, 0, 1, "hi"⟩]⟩ DB.empty
      = (.error "AttributeError: get", DB.empty) := by decide

/-- C1 (amended). For every valid bound range and every oracle response whose
validation returns (rather than raising), validation followed by repair
yields a non-empty sequence; when validation yields zero usable units the
result is exactly one synthetic unit spanning the full bound range — for
Pass 1 a narrative segment with confidence `0.5` and the fallback note, for
Pass 2 an empty-questions block over the qa_range. -/
theorem coverage_or_fallback_amended :
    (∀ (items : List JValue) (max_u : Int) (validated : List BoundarySegment),
      validate_segments items max_u = .ok validated →
        repairBoundaries max_u validated ≠ [] ∧
        (validated = [] → repairBoundaries max_u validated =
          [⟨SegType.narrative, 0, max_u, half, some "Fallback: entire transcript as narrative"⟩])) ∧
    (∀ (items : List JValue) (qa_range : QARange) (validated : List QABlock),
      validate_blocks items qa_range.start_u qa_range.end_u = .ok validated →
        repairBlocks qa_range validated ≠ [] ∧
        (validated = [] → repairBlocks qa_range validated =
          [⟨qa_range.start_u, qa_range.end_u, [], "Fallback: entire Q&A region as one block", half⟩])) := by
  constructor
  · intro items max_u validated _
    cases validated with
    | nil => simp [repairBoundaries, fallbackBoundary]
    | cons s rest => simp [repairBoundaries]
  · intro items qa_range validated _
    cases validated with
    | nil => simp [repairBlocks, fallbackBlock]
    | cons b rest => simp [repairBlocks]

/-- Witness for C1 (amended): an empty validated list repairs to exactly the
fallback segment. -/
theorem coverage_or_fallback_amended_witness :
    repairBoundaries 9 [] ≠ [] ∧
    (([] : List BoundarySegment) = [] → repairBoundaries 9 [] =
      [⟨SegType.narrative, 0, 9, half, some "Fallback: entire transcript as narrative"⟩]) :=
  coverage_or_fallback_amended.1 [] 9 [] (by decide)

/-- C5. Pass 1 atomicity on oracle failure: when the oracle invocation fails
after all retries, `segment_boundaries` raises a 502 to the caller and the
store is returned exactly as it was — in particular no boundary row of any
video is deleted or written, because deletion only happens after a successful
oracle call. -/
theorem pass1_atomic_on_oracle_failure :
    ∀ (e now : String) (req : BoundaryRequest) (db : DB), req.utterances ≠ [] →
      segment_boundaries (.error e) now req db =
        (.error ("502: LLM error: " ++ e), db) := by
  intro e now req db hne
  cases hu : req.utterances with
  | nil => exact absurd hu hne
  | cons a l =>
    unfold segment_boundaries segment_boundaries_result
    rw [hu]
    simp

/-- Witness for C5: a failed oracle call on a one-utterance request leaves
the empty store empty and surfaces the 502. -/
theorem pass1_atomic_on_oracle_failure_witness :
    segment_boundaries (.error "boom") "t" ⟨"v", [⟨0, 0, 1, "x"⟩]⟩ DB.empty =
      (.error ("502: LLM error: " ++ "boom"), DB.empty) :=
  pass1_atomic_on_oracle_failure "boom" "t" ⟨"v", [⟨0, 0, 1, "x"⟩]⟩ DB.empty (by decide)

/-- C9. The retrieval endpoint returns every stored block with `text = ""`:
the block table has no text column and `get_segments` fills the field with
the empty string, so readers never see the span-joined text computed during
the pipeline run. -/
theorem get_segments_text_empty :
    ∀ (video_id : String) (db : DB) (resp : SegmentsResponse),
      get_segments video_id db = .ok resp → ∀ b ∈ resp.qa_blocks, b.text = "" := by
  intro vid db resp h b hb
  simp only [get_segments] at h
  split at h
  · simp at h
  · simp only [Except.ok.injEq] at h
    subst h
    simp only [List.mem_map] at hb
    obtain ⟨row, _, hb2⟩ := hb
    rw [← hb2]

/-- Witness for C9 on a store holding one block row. -/
theorem get_segments_text_empty_witness : ("" : String) = "" :=
  get_segments_text_empty "v"
    ⟨[], [], [⟨"v", "qa_000", 0, 1, 0, 2, [], "s", 1, "t"⟩], []⟩
    ⟨"v", [], [⟨"qa_000", 0, 1, 0, 2, [], "s", 1, "", "t"⟩]⟩ (by decide)
    ⟨"qa_000", 0, 1, 0, 2, [], "s", 1, "", "t"⟩ (by decide)

/-- C10. An opinion-detection request with an empty persons list
short-circuits: the service returns the fixed confidence-1.0 response
(`has_opinion=false`, empty targets and spans, polarity unclear) and persists
exactly that row, and the outcome is identical for every oracle — no oracle
call is made. -/
theorem empty_persons_short_circuit :
    ∀ (o1 o2 : DetectRequest → Except String DetectResponse) (now : String)
      (req : DetectRequest) (db : DB), req.persons = [] →
      detect_opinion o1 now req db =
        (⟨false, [], [], Polarity.unclear, 1⟩,
         upsert_detection
           ⟨req.chunk_id, req.start, req.«end», [], false, [], [], Polarity.unclear, 1, now⟩ db) ∧
      detect_opinion o1 now req db = detect_opinion o2 now req db := by
  intro o1 o2 now req db hp
  unfold detect_opinion detect_single persist_detection mkDetectionRow
  rw [hp]
  simp

/-- Witness for C10 at a concrete empty-persons request. -/
theorem empty_persons_short_circuit_witness :
    detect_opinion (fun _ => .error "net") "t" ⟨"c1", 0, 1, "text", []⟩ DB.empty =
      (⟨false, [], [], Polarity.unclear, 1⟩,
       upsert_detection ⟨"c1", 0, 1, [], false, [], [], Polarity.unclear, 1, "t"⟩ DB.empty) ∧
    detect_opinion (fun _ => .error "net") "t" ⟨"c1", 0, 1, "text", []⟩ DB.empty =
      detect_opinion (fun _ => .ok ⟨true, ["x"], ["y"], Polarity.negative, 1⟩) "t"
        ⟨"c1", 0, 1, "text", []⟩ DB.empty :=
  empty_persons_short_circuit (fun _ => .error "net")
    (fun _ => .ok ⟨true, ["x"], ["y"], Polarity.negative, 1⟩) "t"
    ⟨"c1", 0, 1, "text", []⟩ DB.empty (by decide)

/-- A row of an upserted table is the upserted row or an original row. -/
theorem mem_upsertRow {α} {k : α → Bool} {row r : α} {rows : List α}
    (h : r ∈ upsertRow k row rows) : r = row ∨ r ∈ rows := by
  unfold upsertRow at h
  split at h
  · simp only [List.mem_map] at h
    obtain ⟨x, hx, hxr⟩ := h
    by_cases hk : k x = true
    · rw [if_pos hk] at hxr
      exact Or.inl hxr.symm
    · rw [if_neg hk] at hxr
      exact Or.inr (hxr ▸ hx)
  · rcases List.mem_append.mp h with h2 | h2
    · exact Or.inr h2
    · simp only [List.mem_singleton] at h2
      exact Or.inl h2

/-- After `delete_boundaries`, no row of the video remains. -/
theorem delete_boundaries_clears {vid : String} {db : DB} {r : BoundaryRow}
    (h : r ∈ (delete_boundaries vid db).qa_boundary) : r.video_id ≠ vid := by
  unfold delete_boundaries at h
  simp only [List.mem_filter, Bool.not_eq_eq_eq_not, Bool.not_true, beq_eq_false_iff_ne] at h
  exact h.2

/-- After `delete_blocks`, no row of the video remains. -/
theorem delete_blocks_clears {vid : String} {db : DB} {r : BlockRow}
    (h : r ∈ (delete_blocks vid db).qa_block) : r.video_id ≠ vid := by
  unfold delete_blocks at h
  simp only [List.mem_filter, Bool.not_eq_eq_eq_not, Bool.not_true, beq_eq_false_iff_ne] at h
  exact h.2

/-- Properties preserved by the boundary upsert loop. -/
theorem insertBoundaries_pres {vid : String} {utts : List Utterance} {now : String}
    (P : BoundaryRow → Prop) (hP : ∀ i seg, P (mkBoundaryRow vid utts now i seg)) :
    ∀ (segs : List BoundarySegment) (i : Nat) (db : DB),
      (∀ r ∈ db.qa_boundary, P r) →
      ∀ r ∈ (insertBoundaries vid utts now segs i db).qa_boundary, P r := by
  intro segs
  induction segs with
  | nil => intro i db hdb r hr; exact hdb r hr
  | cons seg rest ih =>
    intro i db hdb r hr
    refine ih (i + 1) _ ?_ r hr
    intro r2 hr2
    rcases mem_upsertRow hr2 with h2 | h2
    · rw [h2]; exact hP i seg
    · exact hdb r2 h2

/-- Properties preserved by the block upsert loop. -/
theorem insertBlocks_pres {vid : String} {utts : List Utterance} {now : String}
    (P : BlockRow → Prop) (hP : ∀ i block, P (mkBlockRow vid utts now i block)) :
    ∀ (blocks : List QABlock) (i : Nat) (db : DB),
      (∀ r ∈ db.qa_block, P r) →
      ∀ r ∈ (insertBlocks vid utts now blocks i db).qa_block, P r := by
  intro blocks
  induction blocks with
  | nil => intro i db hdb r hr; exact hdb r hr
  | cons block rest ih =>
    intro i db hdb r hr
    refine ih (i + 1) _ ?_ r hr
    intro r2 hr2
    rcases mem_upsertRow hr2 with h2 | h2
    · rw [h2]; exact hP i block
    · exact hdb r2 h2

/-- Inversion of a successful `segment_boundaries` call. -/
theorem segment_boundaries_ok_inv {oracle : Except String JValue} {now : String}
    {req : BoundaryRequest} {db : DB} {resp : BoundaryResponse} {db' : DB}
    (h : segment_boundaries oracle now req db = (.ok resp, db')) :
    ∃ segments, segment_boundaries_result oracle req = .ok segments ∧
      resp = ⟨req.video_id, segments⟩ ∧
      db' = insertBoundaries req.video_id req.utterances now segments 0
              (delete_boundaries req.video_id db) := by
  unfold segment_boundaries at h
  cases hres : segment_boundaries_result oracle req with
  | error e => rw [hres] at h; simp at h
  | ok segments =>
    rw [hres] at h
    simp only [Prod.mk.injEq, Except.ok.injEq] at h
    exact ⟨segments, rfl, h.1.symm, h.2.symm⟩

/-- Inversion of a successful `segment_blocks` call. -/
theorem segment_blocks_ok_inv {oracle : Except String JValue} {now : String}
    {req : BlocksRequest} {db : DB} {resp : BlocksResponse} {db' : DB}
    (h : segment_blocks oracle now req db = (.ok resp, db')) :
    ∃ blocks, segment_blocks_result oracle req = .ok blocks ∧
      resp = ⟨req.video_id, blocks⟩ ∧
      db' = insertBlocks req.video_id req.utterances now blocks 0
              (delete_blocks req.video_id db) := by
  unfold segment_blocks at h
  cases hres : segment_blocks_result oracle req with
  | error e => rw [hres] at h; simp at h
  | ok blocks =>
    rw [hres] at h
    simp only [Prod.mk.injEq, Except.ok.injEq] at h
    exact ⟨blocks, rfl, h.1.symm, h.2.symm⟩

/-- Properties of every stored block built by the renumbering loop. -/
theorem numberBlocks_pres {utts : List Utterance} {now : String} (P : StoredQABlock → Prop)
    (hP : ∀ i b, P (mkStoredBlock utts now i b)) :
    ∀ (blocks : List QABlock) (c : Nat) (sb : StoredQABlock),
      sb ∈ numberBlocks utts now c blocks → P sb := by
  intro blocks
  induction blocks with
  | nil => intro c sb h; simp [numberBlocks] at h
  | cons b rest ih =>
    intro c sb h
    simp only [numberBlocks, List.mem_cons] at h
    rcases h with h | h
    · rw [h]; exact hP c b
    · exact ih (c + 1) sb h

/-- Properties of every stored block emitted by the orchestrator loop. -/
theorem segmentFullLoop_fst_pres {o : BlocksRequest → Except String JValue} {now vid : String}
    {utts : List Utterance} (P : StoredQABlock → Prop)
    (hP : ∀ i b, P (mkStoredBlock utts now i b)) :
    ∀ (segs : List BoundarySegment) (c : Nat) (db : DB) (sb : StoredQABlock),
      sb ∈ (segmentFullLoop o now vid utts segs c db).1 → P sb := by
  intro segs
  induction segs with
  | nil => intro c db sb h; simp [segmentFullLoop] at h
  | cons seg rest ih =>
    intro c db sb h
    simp only [segmentFullLoop] at h
    split at h
    · exact ih _ _ _ h
    · split at h
      · exact ih _ _ _ h
      · split at h
        · exact ih _ _ _ h
        · rename_i blocks_resp db2 heq
          rcases hrec : segmentFullLoop o now vid utts rest
              (c + blocks_resp.qa_blocks.length) db2 with ⟨tail, db3⟩
          rw [hrec] at h
          simp only [List.mem_append] at h
          rcases h with h | h
          · exact numberBlocks_pres P hP _ _ _ h
          · refine ih (c + blocks_resp.qa_blocks.length) db2 sb ?_
            rw [hrec]
            exact h

/-- C8. Wall-clock derivation with lossy default: every boundary row persisted
by a successful Pass 1 call, and every stored block returned by a successful
full run, carries as its `start` (resp. `end`) time the `start` (resp. `end`)
field of the first utterance whose index equals the unit's `start_u` (resp.
`end_u`), and `0.0` when no utterance in the provided list has that index. -/
theorem wallclock_derivation :
    (∀ (oracle : Except String JValue) (now : String) (req : BoundaryRequest) (db : DB)
       (resp : BoundaryResponse) (db' : DB),
      segment_boundaries oracle now req db = (.ok resp, db') →
      ∀ r ∈ db'.qa_boundary, r.video_id = req.video_id →
        r.start = (match get_utterance_by_index req.utterances r.start_u with
          | some u => u.start | none => 0) ∧
        r.«end» = (match get_utterance_by_index req.utterances r.end_u with
          | some u => u.«end» | none => 0)) ∧
    (∀ (oracleB : Except String JValue) (oracleBlocks : BlocksRequest → Except String JValue)
       (now : String) (req : FullSegmentRequest) (db : DB) (resp : SegmentsResponse) (db' : DB),
      segment_full oracleB oracleBlocks now req db = (.ok resp, db') →
      ∀ b ∈ resp.qa_blocks,
        b.start = (match get_utterance_by_index req.utterances b.start_u with
          | some u => u.start | none => 0) ∧
        b.«end» = (match get_utterance_by_index req.utterances b.end_u with
          | some u => u.«end» | none => 0)) := by
  constructor
  · intro oracle now req db resp db' h r hr hvid
    obtain ⟨segments, _, _, hdb'⟩ := segment_boundaries_ok_inv h
    subst hdb'
    revert hvid
    refine insertBoundaries_pres
      (fun r => r.video_id = req.video_id →
        r.start = (match get_utterance_by_index req.utterances r.start_u with
          | some u => u.start | none => 0) ∧
        r.«end» = (match get_utterance_by_index req.utterances r.end_u with
          | some u => u.«end» | none => 0)) ?_ segments 0 _ ?_ r hr
    · intro i seg _
      exact ⟨rfl, rfl⟩
    · intro r2 hr2 hvid2
      exact absurd hvid2 (delete_boundaries_clears hr2)
  · intro oracleB oracleBlocks now req db resp db' h b hb
    unfold segment_full at h
    rcases hsb : segment_boundaries oracleB now ⟨req.video_id, req.utterances⟩ db
        with ⟨bres, db1⟩
    rw [hsb] at h
    cases bres with
    | error e => simp at h
    | ok boundary_resp =>
      dsimp only at h
      rcases hloop : segmentFullLoop oracleBlocks now req.video_id req.utterances
          boundary_resp.segments 0 db1 with ⟨all_blocks, db2⟩
      rw [hloop] at h
      dsimp only at h
      simp only [Prod.mk.injEq, Except.ok.injEq] at h
      have hresp : resp = ⟨req.video_id,
          mkStoredBoundaries req.utterances now boundary_resp.segments 0, all_blocks⟩ :=
        h.1.symm
      subst hresp
      refine @segmentFullLoop_fst_pres oracleBlocks now req.video_id req.utterances
        (fun b => b.start = (match get_utterance_by_index req.utterances b.start_u with
            | some u => u.start | none => 0) ∧
          b.«end» = (match get_utterance_by_index req.utterances b.end_u with
            | some u => u.«end» | none => 0)) ?_
        boundary_resp.segments 0 db1 b ?_
      · intro i blk
        exact ⟨rfl, rfl⟩
      · rw [hloop]
        exact hb

/-- Witness for C8 on a concrete one-utterance run: the stored row's times
are the utterance's times. -/
theorem wallclock_derivation_witness :
    (3 : ℚ) = (match get_utterance_by_index [⟨0, 3, 4, "x"⟩] (0 : Int) with
      | some u => u.start | none => 0) ∧
    (4 : ℚ) = (match get_utterance_by_index [⟨0, 3, 4, "x"⟩] (0 : Int) with
      | some u => u.«end» | none => 0) :=
  wallclock_derivation.1
    (.ok (.obj [("segments",
      .arr [.obj [("start_u", .num 0), ("end_u", .num 0), ("confidence", .num 1)]])])) "t"
    ⟨"v", [⟨0, 3, 4, "x"⟩]⟩ DB.empty ⟨"v", [⟨.narrative, 0, 0, 1, none⟩]⟩
    ⟨[], [⟨"v", "seg_000", .narrative, 0, 0, 3, 4, 1, none, "t"⟩], [], []⟩
    (by decide) ⟨"v", "seg_000", .narrative, 0, 0, 3, 4, 1, none, "t"⟩ (by decide) rfl

/-- The renumbering loop emits one stored block per input block. -/
theorem numberBlocks_length {utts : List Utterance} {now : String} :
    ∀ (blocks : List QABlock) (c : Nat), (numberBlocks utts now c blocks).length = blocks.length := by
  intro blocks
  induction blocks with
  | nil => intro c; rfl
  | cons b rest ih => intro c; simp [numberBlocks, ih (c + 1)]

/-- The ids the renumbering loop assigns are consecutive from its counter. -/
theorem numberBlocks_ids {utts : List Utterance} {now : String} :
    ∀ (blocks : List QABlock) (c : Nat),
      (numberBlocks utts now c blocks).map (fun sb => sb.block_id) =
        (List.range' c blocks.length).map blockId := by
  intro blocks
  induction blocks with
  | nil => intro c; rfl
  | cons b rest ih =>
    intro c
    simp only [numberBlocks, List.map_cons, List.length_cons, List.range'_succ]
    exact congrArg (blockId c :: ·) (ih (c + 1))

/-- The orchestrator loop emits blocks whose ids are consecutive from its
counter, with no gaps, whatever the per-segment outcomes are. -/
theorem segmentFullLoop_ids {o : BlocksRequest → Except String JValue} {now vid : String}
    {utts : List Utterance} :
    ∀ (segs : List BoundarySegment) (c : Nat) (db : DB),
      ((segmentFullLoop o now vid utts segs c db).1).map (fun sb => sb.block_id) =
        (List.range' c (segmentFullLoop o now vid utts segs c db).1.length).map blockId := by
  intro segs
  induction segs with
  | nil => intro c db; rfl
  | cons seg rest ih =>
    intro c db
    simp only [segmentFullLoop]
    split
    · exact ih c db
    · split
      · exact ih c db
      · split
        · exact ih c _
        · rename_i blocks_resp db2 heq
          rcases hrec : segmentFullLoop o now vid utts rest
              (c + blocks_resp.qa_blocks.length) db2 with ⟨tail, db3⟩
          have htail := ih (c + blocks_resp.qa_blocks.length) db2
          rw [hrec] at htail
          simp only [List.map_append, List.length_append, numberBlocks_ids,
            numberBlocks_length]
          rw [htail]
          dsimp only
          have hsplit := List.range'_append c blocks_resp.qa_blocks.length tail.length 1
          simp only [one_mul] at hsplit
          rw [← List.map_append, hsplit, Nat.add_comm blocks_resp.qa_blocks.length tail.length]

/-- C6. Renumbering determinism: on a successful full run the orchestrator's
global block ids are `qa_000, qa_001, ...` — the id at position `i` of the
returned block list is `blockId i`, consecutively with no gaps (first
conjunct); a narrative segment contributes zero blocks and leaves the state
untouched (second conjunct); and a qa segment with a non-empty utterance
subset whose Pass 2 call succeeds contributes exactly its Pass 2 blocks, in
their order, numbered from the running counter, before the following
segments' blocks (third conjunct). -/
theorem renumbering_deterministic :
    (∀ (oracleB : Except String JValue) (oracleBlocks : BlocksRequest → Except String JValue)
       (now : String) (req : FullSegmentRequest) (db : DB) (resp : SegmentsResponse) (db' : DB),
      segment_full oracleB oracleBlocks now req db = (.ok resp, db') →
      resp.qa_blocks.map (fun b => b.block_id) =
        (List.range resp.qa_blocks.length).map blockId) ∧
    (∀ (o : BlocksRequest → Except String JValue) (now vid : String) (utts : List Utterance)
       (seg : BoundarySegment) (segs : List BoundarySegment) (c : Nat) (db : DB),
      seg.type = SegType.narrative →
      segmentFullLoop o now vid utts (seg :: segs) c db =
        segmentFullLoop o now vid utts segs c db) ∧
    (∀ (o : BlocksRequest → Except String JValue) (now vid : String) (utts : List Utterance)
       (seg : BoundarySegment) (segs : List BoundarySegment) (c : Nat) (db : DB)
       (resp2 : BlocksResponse) (db2 : DB),
      seg.type = SegType.qa →
      (qaUtterances utts seg).isEmpty = false →
      segment_blocks (o (mkBlocksRequest vid utts seg)) now (mkBlocksRequest vid utts seg) db =
        (.ok resp2, db2) →
      (segmentFullLoop o now vid utts (seg :: segs) c db).1 =
        numberBlocks utts now c resp2.qa_blocks ++
          (segmentFullLoop o now vid utts segs (c + resp2.qa_blocks.length) db2).1) := by
  refine ⟨?_, ?_, ?_⟩
  · intro oracleB oracleBlocks now req db resp db' h
    unfold segment_full at h
    rcases hsb : segment_boundaries oracleB now ⟨req.video_id, req.utterances⟩ db
        with ⟨bres, db1⟩
    rw [hsb] at h
    cases bres with
    | error e => simp at h
    | ok boundary_resp =>
      dsimp only at h
      rcases hloop : segmentFullLoop oracleBlocks now req.video_id req.utterances
          boundary_resp.segments 0 db1 with ⟨all_blocks, db2⟩
      rw [hloop] at h
      dsimp only at h
      simp only [Prod.mk.injEq, Except.ok.injEq] at h
      have hresp : resp = ⟨req.video_id,
          mkStoredBoundaries req.utterances now boundary_resp.segments 0, all_blocks⟩ :=
        h.1.symm
      subst hresp
      have hids := @segmentFullLoop_ids oracleBlocks now req.video_id req.utterances
        boundary_resp.segments 0 db1
      rw [hloop] at hids
      simpa [List.range_eq_range'] using hids
  · intro o now vid utts seg segs c db hty
    have hne2 : seg.type ≠ SegType.qa := by rw [hty]; intro hcontra; cases hcontra
    simp only [segmentFullLoop]
    rw [if_pos hne2]
  · intro o now vid utts seg segs c db resp2 db2 hty hne hok
    simp only [segmentFullLoop]
    rw [if_neg (by rw [hty]; intro hcontra; exact hcontra rfl)]
    rw [if_neg (by rw [hne]; intro hcontra; cases hcontra)]
    rw [hok]

/-- A row matching the block upsert key has the upserted row's video. -/
theorem blockKey_video {vid : String} {row r : BlockRow} (hrow : row.video_id = vid)
    (h : (r.video_id == row.video_id && r.block_id == row.block_id) = true) :
    (r.video_id == vid) = true := by
  simp only [Bool.and_eq_true, beq_iff_eq] at h ⊢
  rw [h.1, hrow]

/-- The upsert key test is insensitive to filtering by the row's video. -/
theorem any_key_filter_video {vid : String} {row : BlockRow} (hrow : row.video_id = vid) :
    ∀ l : List BlockRow,
      ((l.filter (fun r => r.video_id == vid)).any
        (fun r => r.video_id == row.video_id && r.block_id == row.block_id)) =
      l.any (fun r => r.video_id == row.video_id && r.block_id == row.block_id) := by
  intro l
  induction l with
  | nil => rfl
  | cons x xs ih =>
    by_cases hv : (x.video_id == vid) = true
    · simp [List.filter_cons, hv, List.any_cons, ih]
    · have hk : (x.video_id == row.video_id && x.block_id == row.block_id) = false := by
        cases hkk : (x.video_id == row.video_id && x.block_id == row.block_id) with
        | false => rfl
        | true => exact absurd (blockKey_video hrow hkk) hv
      simp [List.filter_cons, hv, List.any_cons, hk, ih]

/-- Replacing the keyed row commutes with filtering by the row's video. -/
theorem filter_video_map_upd {vid : String} {row : BlockRow} (hrow : row.video_id = vid) :
    ∀ l : List BlockRow,
      ((l.map (fun r =>
          if r.video_id == row.video_id && r.block_id == row.block_id then row else r)).filter
        (fun r => r.video_id == vid)) =
      ((l.filter (fun r => r.video_id == vid)).map (fun r =>
          if r.video_id == row.video_id && r.block_id == row.block_id then row else r)) := by
  have hpt : ∀ r : BlockRow,
      ((if (r.video_id == row.video_id && r.block_id == row.block_id) = true
        then row else r).video_id == vid) = (r.video_id == vid) := by
    intro r
    by_cases hk : (r.video_id == row.video_id && r.block_id == row.block_id) = true
    · rw [if_pos hk, beq_iff_eq.mpr hrow, blockKey_video hrow hk]
    · rw [if_neg hk]
  intro l
  induction l with
  | nil => rfl
  | cons x xs ih =>
    simp only [List.map_cons, List.filter_cons, hpt x]
    by_cases hv : (x.video_id == vid) = true
    · rw [if_pos hv, if_pos hv, List.map_cons, ih]
    · rw [if_neg hv, if_neg hv, ih]

/-- The video's slice of the block table after `upsert_block` of one of the
video's rows is the upsert applied to the video's slice. -/
theorem filter_video_upsert_block (vid : String) (row : BlockRow) (hrow : row.video_id = vid)
    (db : DB) :
    ((upsert_block row db).qa_block.filter (fun r => r.video_id == vid)) =
      upsertRow (fun r => r.video_id == row.video_id && r.block_id == row.block_id) row
        (db.qa_block.filter (fun r => r.video_id == vid)) := by
  unfold upsert_block upsertRow
  dsimp only
  by_cases hany :
      db.qa_block.any (fun r => r.video_id == row.video_id && r.block_id == row.block_id) = true
  · rw [if_pos hany, if_pos (by rw [any_key_filter_video hrow]; exact hany)]
    exact filter_video_map_upd hrow db.qa_block
  · rw [if_neg hany, if_neg (by rw [any_key_filter_video hrow]; exact hany)]
    rw [List.filter_append]
    have hvrow : (row.video_id == vid) = true := beq_iff_eq.mpr hrow
    simp [hvrow]

/-- After `delete_blocks`, the video's slice of the block table is empty. -/
theorem filter_video_delete_blocks (vid : String) (db : DB) :
    (delete_blocks vid db).qa_block.filter (fun r => r.video_id == vid) = [] := by
  unfold delete_blocks
  induction db.qa_block with
  | nil => rfl
  | cons x xs ih =>
    by_cases hv : (x.video_id == vid) = true <;>
      simp [List.filter_cons, hv, ih]

/-- The video's slice of the block table after the insert loop depends only
on the slice before it. -/
theorem insertBlocks_filter_congr (vid : String) (utts : List Utterance) (now : String) :
    ∀ (blocks : List QABlock) (i : Nat) (db1 db2 : DB),
      db1.qa_block.filter (fun r => r.video_id == vid) =
        db2.qa_block.filter (fun r => r.video_id == vid) →
      (insertBlocks vid utts now blocks i db1).qa_block.filter (fun r => r.video_id == vid) =
        (insertBlocks vid utts now blocks i db2).qa_block.filter (fun r => r.video_id == vid) := by
  intro blocks
  induction blocks with
  | nil => intro i db1 db2 h; exact h
  | cons b rest ih =>
    intro i db1 db2 h
    simp only [insertBlocks]
    refine ih (i + 1) _ _ ?_
    rw [filter_video_upsert_block vid (mkBlockRow vid utts now i b) rfl db1,
      filter_video_upsert_block vid (mkBlockRow vid utts now i b) rfl db2, h]

/-- Inserting into an empty store yields only the video's rows. -/
theorem insertBlocks_empty_filter (vid : String) (utts : List Utterance) (now : String)
    (bs : List QABlock) :
    ((insertBlocks vid utts now bs 0 DB.empty).qa_block.filter (fun r => r.video_id == vid)) =
      (insertBlocks vid utts now bs 0 DB.empty).qa_block := by
  apply List.filter_eq_self.mpr
  intro r hr
  have hv := insertBlocks_pres (fun r => r.video_id = vid) (fun i b => rfl) bs 0 DB.empty
    (by intro r2 h2; cases h2) r hr
  exact beq_iff_eq.mpr hv

/-- Membership characterization of the block insert loop. -/
theorem insertBlocks_mem (vid : String) (utts : List Utterance) (now : String) :
    ∀ (blocks : List QABlock) (i : Nat) (db : DB) (r : BlockRow),
      r ∈ (insertBlocks vid utts now blocks i db).qa_block →
      r ∈ db.qa_block ∨ ∃ k, ∃ hk : k < blocks.length,
        r = mkBlockRow vid utts now (i + k) (blocks.get ⟨k, hk⟩) := by
  intro blocks
  induction blocks with
  | nil => intro i db r h; exact Or.inl h
  | cons b rest ih =>
    intro i db r h
    simp only [insertBlocks] at h
    rcases ih (i + 1) _ r h with h2 | ⟨k, hk, hr⟩
    · rcases mem_upsertRow h2 with h3 | h3
      · right
        exact ⟨0, by simp, by simpa using h3⟩
      · exact Or.inl h3
    · right
      refine ⟨k + 1, by simpa using Nat.succ_lt_succ hk, ?_⟩
      rw [hr]
      have harith : i + 1 + k = i + (k + 1) := by omega
      rw [harith]
      rfl

/-- A `segment_blocks` call whose response computation succeeds deletes the
video's blocks and inserts the new ones, numbered from zero. -/
theorem segment_blocks_of_result_ok {oracle : Except String JValue} {now : String}
    {req : BlocksRequest} {db : DB} {blocks : List QABlock}
    (h : segment_blocks_result oracle req = .ok blocks) :
    segment_blocks oracle now req db = (.ok ⟨req.video_id, blocks⟩,
      insertBlocks req.video_id req.utterances now blocks 0 (delete_blocks req.video_id db)) := by
  unfold segment_blocks
  rw [h]

/-- A `segment_blocks` call whose response computation raises leaves the
store untouched. -/
theorem segment_blocks_of_result_error {oracle : Except String JValue} {now : String}
    {req : BlocksRequest} {db : DB} {e : String}
    (h : segment_blocks_result oracle req = .error e) :
    segment_blocks oracle now req db = (.error e, db) := by
  unfold segment_blocks
  rw [h]

/-- Segments that write nothing leave the store exactly as it was. -/
theorem segmentFullLoop_skip {o : BlocksRequest → Except String JValue} {now vid : String}
    {utts : List Utterance} :
    ∀ (segs : List BoundarySegment), (∀ seg ∈ segs, segWritesNothing o vid utts seg) →
      ∀ (c : Nat) (db : DB), (segmentFullLoop o now vid utts segs c db).2 = db := by
  intro segs
  induction segs with
  | nil => intro _ c db; rfl
  | cons seg rest ih =>
    intro hall c db
    have hseg := hall seg (List.mem_cons_self _ _)
    have hrest := fun s hs => hall s (List.mem_cons_of_mem _ hs)
    simp only [segmentFullLoop]
    by_cases hty : seg.type ≠ SegType.qa
    · rw [if_pos hty]
      exact ih hrest c db
    · rw [if_neg hty]
      by_cases hempty : (qaUtterances utts seg).isEmpty = true
      · rw [if_pos hempty]
        exact ih hrest c db
      · rw [if_neg hempty]
        rcases hseg with h1 | h2 | ⟨e, h3⟩
        · exact absurd h1 hty
        · exact absurd h2 hempty
        · rw [segment_blocks_of_result_error h3]
          exact ih hrest c db

/-- The store after running the loop on `pre ++ rest` is the store after
running it on `rest` from some intermediate counter and store. -/
theorem segmentFullLoopSnd_append {o : BlocksRequest → Except String JValue} {now vid : String}
    {utts : List Utterance} :
    ∀ (pre rest : List BoundarySegment) (c : Nat) (db : DB),
      ∃ c' db'', (segmentFullLoop o now vid utts (pre ++ rest) c db).2 =
        (segmentFullLoop o now vid utts rest c' db'').2 := by
  intro pre
  induction pre with
  | nil => intro rest c db; exact ⟨c, db, rfl⟩
  | cons seg ps ih =>
    intro rest c db
    simp only [List.cons_append, segmentFullLoop]
    split
    · exact ih rest c db
    · split
      · exact ih rest c db
      · split
        · exact ih rest c _
        · rename_i blocks_resp db2 heq
          obtain ⟨c', db'', hx⟩ := ih rest (c + blocks_resp.qa_blocks.length) db2
          rcases hrec : segmentFullLoop o now vid utts (ps ++ rest)
              (c + blocks_resp.qa_blocks.length) db2 with ⟨tail, db3⟩
          rw [hrec] at hx
          exact ⟨c', db'', hx⟩

/-- Running the loop on a successful qa segment followed by non-writing
segments leaves, as the video's slice of the block table, exactly the result
of inserting that segment's blocks into an empty store. -/
theorem loop_last_filter {o : BlocksRequest → Except String JValue} {now vid : String}
    {utts : List Utterance} {lastSeg : BoundarySegment} {post : List BoundarySegment}
    {bs : List QABlock}
    (hty : lastSeg.type = SegType.qa)
    (hne : (qaUtterances utts lastSeg).isEmpty = false)
    (hres : segment_blocks_result (o (mkBlocksRequest vid utts lastSeg))
      (mkBlocksRequest vid utts lastSeg) = .ok bs)
    (hpost : ∀ seg ∈ post, segWritesNothing o vid utts seg) :
    ∀ (c : Nat) (db : DB),
      ((segmentFullLoop o now vid utts (lastSeg :: post) c db).2).qa_block.filter
          (fun r => r.video_id == vid) =
        (insertBlocks vid (qaUtterances utts lastSeg) now bs 0 DB.empty).qa_block := by
  intro c db
  simp only [segmentFullLoop]
  rw [if_neg (by rw [hty]; intro hc; exact hc rfl)]
  rw [if_neg (by rw [hne]; intro hc; cases hc)]
  rw [segment_blocks_of_result_ok hres]
  simp only [mkBlocksRequest]
  rcases hrec : segmentFullLoop o now vid utts post
      (c + bs.length) (insertBlocks vid (qaUtterances utts lastSeg) now bs 0
        (delete_blocks vid db)) with ⟨tail, db3⟩
  have hdb3 : db3 = insertBlocks vid (qaUtterances utts lastSeg) now bs 0
      (delete_blocks vid db) := by
    have hs := @segmentFullLoop_skip o now vid utts post hpost (c + bs.length)
      (insertBlocks vid (qaUtterances utts lastSeg) now bs 0 (delete_blocks vid db))
    rw [hrec] at hs
    exact hs
  dsimp only
  rw [hdb3]
  have hcong := insertBlocks_filter_congr vid (qaUtterances utts lastSeg) now bs 0
    (delete_blocks vid db) DB.empty
    (by rw [filter_video_delete_blocks]; rfl)
  rw [hcong, insertBlocks_empty_filter]

/-- Persisting the export document does not touch the block table. -/
theorem build_and_save_export_qa_block (vid : String) (bounds : List StoredBoundarySegment)
    (blocks : List StoredQABlock) (now : String) (db : DB) :
    (build_and_save_export vid bounds blocks now db).qa_block = db.qa_block := rfl

/-- C4. In the full pipeline run each Pass 2 invocation first deletes ALL
stored blocks of the video, so when the last written qa segment succeeds and
every later segment writes nothing, the persisted block table for the video
afterwards is exactly the result of inserting only that segment's blocks into
an empty store — each stored row is `mkBlockRow` at a position `k < bs.length`
with id `blockId k`, numbered from zero for that call, regardless of the
document-wide numbering the orchestrator returns and exports. -/
theorem blocks_store_last_segment_only :
    ∀ (oracleB : Except String JValue) (oracleBlocks : BlocksRequest → Except String JValue)
      (now : String) (req : FullSegmentRequest) (db : DB) (resp : SegmentsResponse) (db' : DB)
      (bres : BoundaryResponse) (db1 : DB) (pre post : List BoundarySegment)
      (lastSeg : BoundarySegment) (bs : List QABlock),
      segment_full oracleB oracleBlocks now req db = (.ok resp, db') →
      segment_boundaries oracleB now ⟨req.video_id, req.utterances⟩ db = (.ok bres, db1) →
      bres.segments = pre ++ lastSeg :: post →
      lastSeg.type = SegType.qa →
      (qaUtterances req.utterances lastSeg).isEmpty = false →
      segment_blocks_result (oracleBlocks (mkBlocksRequest req.video_id req.utterances lastSeg))
        (mkBlocksRequest req.video_id req.utterances lastSeg) = .ok bs →
      (∀ seg ∈ post, segWritesNothing oracleBlocks req.video_id req.utterances seg) →
      db'.qa_block.filter (fun r => r.video_id == req.video_id) =
        (insertBlocks req.video_id (qaUtterances req.utterances lastSeg) now bs 0 DB.empty).qa_block ∧
      (∀ r ∈ db'.qa_block, r.video_id = req.video_id →
        ∃ k, ∃ hk : k < bs.length,
          r = mkBlockRow req.video_id (qaUtterances req.utterances lastSeg) now k
            (bs.get ⟨k, hk⟩)) := by
  intro oracleB oracleBlocks now req db resp db' bres db1 pre post lastSeg bs
    h hsb hsegs hty hne hres hpost
  unfold segment_full at h
  rw [hsb] at h
  dsimp only at h
  rcases hloop : segmentFullLoop oracleBlocks now req.video_id req.utterances
      bres.segments 0 db1 with ⟨all_blocks, db2⟩
  rw [hloop] at h
  dsimp only at h
  simp only [Prod.mk.injEq, Except.ok.injEq] at h
  have hq : db'.qa_block = db2.qa_block := by
    rw [← h.2]
    rfl
  have hdb2 : db2 = (segmentFullLoop oracleBlocks now req.video_id req.utterances
      bres.segments 0 db1).2 := by rw [hloop]
  rw [hsegs] at hdb2
  obtain ⟨c', db'', happ⟩ := segmentFullLoopSnd_append pre (lastSeg :: post) 0 db1
  rw [happ] at hdb2
  have hfilter := @loop_last_filter oracleBlocks now req.video_id req.utterances lastSeg
    post bs hty hne hres hpost c' db''
  have hmain : db'.qa_block.filter (fun r => r.video_id == req.video_id) =
      (insertBlocks req.video_id (qaUtterances req.utterances lastSeg) now bs 0
        DB.empty).qa_block := by
    rw [hq, hdb2]
    exact hfilter
  refine ⟨hmain, ?_⟩
  intro r hr hvid
  have hr2 : r ∈ (insertBlocks req.video_id (qaUtterances req.utterances lastSeg) now bs 0
      DB.empty).qa_block := by
    rw [← hmain]
    exact List.mem_filter.mpr ⟨hr, beq_iff_eq.mpr hvid⟩
  rcases insertBlocks_mem req.video_id (qaUtterances req.utterances lastSeg) now bs 0
      DB.empty r hr2 with hcontra | ⟨k, hk, hrk⟩
  · cases hcontra
  · exact ⟨k, hk, by simpa using hrk⟩

/-- Witness for C6 on a concrete two-qa-segment run: the returned global
block ids are `qa_000`, `qa_001`. -/
theorem renumbering_deterministic_witness :
    ([⟨"qa_000", 0, 0, 1, 2, [], "s", 1, "a", "t"⟩,
      ⟨"qa_001", 1, 1, 3, 4, [], "s", 1, "b", "t"⟩] : List StoredQABlock).map
        (fun b => b.block_id) =
      (List.range 2).map blockId :=
  renumbering_deterministic.1
    (.ok (.obj [("segments", .arr [
      .obj [("start_u", .num 0), ("end_u", .num 0), ("type", .str "qa"), ("confidence", .num 1)],
      .obj [("start_u", .num 1), ("end_u", .num 1), ("type", .str "qa"), ("confidence", .num 1)]])]))
    (fun breq => .ok (.obj [("qa_blocks", .arr [.obj [
      ("start_u", .num (breq.qa_range.start_u : ℚ)), ("end_u", .num (breq.qa_range.end_u : ℚ)),
      ("confidence", .num 1), ("answer_summary", .str "s")]])]))
    "t" ⟨"v", [⟨0, 1, 2, "a"⟩, ⟨1, 3, 4, "b"⟩]⟩ DB.empty
    ⟨"v",
      [⟨"seg_000", .qa, 0, 0, 1, 2, 1, none, "t"⟩, ⟨"seg_001", .qa, 1, 1, 3, 4, 1, none, "t"⟩],
      [⟨"qa_000", 0, 0, 1, 2, [], "s", 1, "a", "t"⟩, ⟨"qa_001", 1, 1, 3, 4, [], "s", 1, "b", "t"⟩]⟩
    ⟨[],
      [⟨"v", "seg_000", .qa, 0, 0, 1, 2, 1, none, "t"⟩,
       ⟨"v", "seg_001", .qa, 1, 1, 3, 4, 1, none, "t"⟩],
      [⟨"v", "qa_000", 1, 1, 3, 4, [], "s", 1, "t"⟩],
      [⟨"v",
        [⟨"seg_000", .qa, 0, 0, 1, 2, 1, none, "t"⟩, ⟨"seg_001", .qa, 1, 1, 3, 4, 1, none, "t"⟩],
        [⟨"qa_000", 0, 0, 1, 2, [], "s", 1, "a", "t"⟩,
         ⟨"qa_001", 1, 1, 3, 4, [], "s", 1, "b", "t"⟩],
        "t"⟩]⟩
    (by decide)

/-- Witness for C4 on a concrete run with two qa segments each producing one
block: the store afterwards holds only the second segment's block, stored as
`qa_000`, although the run returned blocks `qa_000` and `qa_001`. -/
theorem blocks_store_last_segment_only_witness :
    (⟨[],
      [⟨"v", "seg_000", .qa, 0, 0, 1, 2, 1, none, "t"⟩,
       ⟨"v", "seg_001", .qa, 1, 1, 3, 4, 1, none, "t"⟩],
      [⟨"v", "qa_000", 1, 1, 3, 4, [], "s", 1, "t"⟩],
      [⟨"v",
        [⟨"seg_000", .qa, 0, 0, 1, 2, 1, none, "t"⟩, ⟨"seg_001", .qa, 1, 1, 3, 4, 1, none, "t"⟩],
        [⟨"qa_000", 0, 0, 1, 2, [], "s", 1, "a", "t"⟩,
         ⟨"qa_001", 1, 1, 3, 4, [], "s", 1, "b", "t"⟩],
        "t"⟩]⟩ : DB).qa_block.filter (fun r => r.video_id == "v") =
      (insertBlocks "v" (qaUtterances [⟨0, 1, 2, "a"⟩, ⟨1, 3, 4, "b"⟩] ⟨SegType.qa, 1, 1, 1, none⟩)
        "t" [⟨1, 1, [], "s", 1⟩] 0 DB.empty).qa_block ∧
    (∀ r ∈ (⟨[],
      [⟨"v", "seg_000", .qa, 0, 0, 1, 2, 1, none, "t"⟩,
       ⟨"v", "seg_001", .qa, 1, 1, 3, 4, 1, none, "t"⟩],
      [⟨"v", "qa_000", 1, 1, 3, 4, [], "s", 1, "t"⟩],
      [⟨"v",
        [⟨"seg_000", .qa, 0, 0, 1, 2, 1, none, "t"⟩, ⟨"seg_001", .qa, 1, 1, 3, 4, 1, none, "t"⟩],
        [⟨"qa_000", 0, 0, 1, 2, [], "s", 1, "a", "t"⟩,
         ⟨"qa_001", 1, 1, 3, 4, [], "s", 1, "b", "t"⟩],
        "t"⟩]⟩ : DB).qa_block, r.video_id = "v" →
      ∃ k, ∃ hk : k < ([(⟨1, 1, [], "s", 1⟩ : QABlock)]).length,
        r = mkBlockRow "v" (qaUtterances [⟨0, 1, 2, "a"⟩, ⟨1, 3, 4, "b"⟩] ⟨SegType.qa, 1, 1, 1, none⟩)
          "t" k (([(⟨1, 1, [], "s", 1⟩ : QABlock)]).get ⟨k, hk⟩)) :=
  blocks_store_last_segment_only
    (.ok (.obj [("segments", .arr [
      .obj [("start_u", .num 0), ("end_u", .num 0), ("type", .str "qa"), ("confidence", .num 1)],
      .obj [("start_u", .num 1), ("end_u", .num 1), ("type", .str "qa"), ("confidence", .num 1)]])]))
    (fun breq => .ok (.obj [("qa_blocks", .arr [.obj [
      ("start_u", .num (breq.qa_range.start_u : ℚ)), ("end_u", .num (breq.qa_range.end_u : ℚ)),
      ("confidence", .num 1), ("answer_summary", .str "s")]])]))
    "t" ⟨"v", [⟨0, 1, 2, "a"⟩, ⟨1, 3, 4, "b"⟩]⟩ DB.empty
    ⟨"v",
      [⟨"seg_000", .qa, 0, 0, 1, 2, 1, none, "t"⟩, ⟨"seg_001", .qa, 1, 1, 3, 4, 1, none, "t"⟩],
      [⟨"qa_000", 0, 0, 1, 2, [], "s", 1, "a", "t"⟩, ⟨"qa_001", 1, 1, 3, 4, [], "s", 1, "b", "t"⟩]⟩
    ⟨[],
      [⟨"v", "seg_000", .qa, 0, 0, 1, 2, 1, none, "t"⟩,
       ⟨"v", "seg_001", .qa, 1, 1, 3, 4, 1, none, "t"⟩],
      [⟨"v", "qa_000", 1, 1, 3, 4, [], "s", 1, "t"⟩],
      [⟨"v",
        [⟨"seg_000", .qa, 0, 0, 1, 2, 1, none, "t"⟩, ⟨"seg_001", .qa, 1, 1, 3, 4, 1, none, "t"⟩],
        [⟨"qa_000", 0, 0, 1, 2, [], "s", 1, "a", "t"⟩,
         ⟨"qa_001", 1, 1, 3, 4, [], "s", 1, "b", "t"⟩],
        "t"⟩]⟩
    ⟨"v", [⟨.qa, 0, 0, 1, none⟩, ⟨.qa, 1, 1, 1, none⟩]⟩
    ⟨[],
      [⟨"v", "seg_000", .qa, 0, 0, 1, 2, 1, none, "t"⟩,
       ⟨"v", "seg_001", .qa, 1, 1, 3, 4, 1, none, "t"⟩],
      [], []⟩
    [⟨.qa, 0, 0, 1, none⟩] [] ⟨.qa, 1, 1, 1, none⟩ [⟨1, 1, [], "s", 1⟩]
    (by decide) (by decide) (by decide) rfl (by decide) (by decide)
    (by intro seg hs; cases hs)

/-- The batch loop returns exactly one `_detect_single` result per item, in
order, independent of the store it threads. -/
theorem detectBatchLoop_results {oracle : DetectRequest → Except String DetectResponse}
    {now : String} :
    ∀ (items : List DetectRequest) (db : DB),
      (detectBatchLoop oracle now items db).1 = items.map (detect_single oracle) := by
  intro items
  induction items with
  | nil => intro db; rfl
  | cons item rest ih =>
    intro db
    simp only [detectBatchLoop]
    rcases hrec : detectBatchLoop oracle now rest
        (persist_detection now item (detect_single oracle item) db) with ⟨results, db2⟩
    have := ih (persist_detection now item (detect_single oracle item) db)
    rw [hrec] at this
    simp only [List.map_cons]
    rw [← this]

/-- A failed oracle call (after retries) on a non-empty persons list degrades
to the zero-confidence safe default. -/
theorem detect_single_failure {oracle : DetectRequest → Except String DetectResponse}
    {req : DetectRequest} {err : String} (hp : req.persons ≠ [])
    (h : oracle (truncateDetectReq req) = .error err) :
    detect_single oracle req = ⟨false, [], [], Polarity.unclear, 0⟩ := by
  unfold detect_single
  rw [if_neg (by simpa [List.isEmpty_iff] using hp)]
  simp only [h]

/-- Replacing the keyed row leaves it findable. -/
theorem find?_map_upd_self :
    ∀ (l : List DetectionRow) (row : DetectionRow),
      l.any (fun r => r.chunk_id == row.chunk_id) = true →
      (l.map (fun r => if r.chunk_id == row.chunk_id then row else r)).find?
        (fun r => r.chunk_id == row.chunk_id) = some row := by
  intro l row
  induction l with
  | nil => intro h; simp at h
  | cons x xs ih =>
    intro h
    by_cases hx : (x.chunk_id == row.chunk_id) = true
    · simp only [List.map_cons, if_pos hx, List.find?_cons, beq_self_eq_true]
    · have hx2 : (x.chunk_id == row.chunk_id) = false := by simpa using hx
      simp only [List.any_cons, hx2, Bool.false_or] at h
      simp only [List.map_cons, List.find?_cons, hx2, Bool.false_eq_true, if_false]
      exact ih h

/-- A search that fails on the prefix continues in the suffix. -/
theorem find?_append_of_none {α} {p : α → Bool} :
    ∀ {l1 l2 : List α}, l1.find? p = none → (l1 ++ l2).find? p = l2.find? p := by
  intro l1
  induction l1 with
  | nil => intro l2 _; rfl
  | cons x xs ih =>
    intro l2 h
    cases hx : p x with
    | true => rw [List.find?_cons_of_pos _ hx] at h; cases h
    | false =>
      rw [List.find?_cons_of_neg _ (by rw [hx]; exact Bool.false_ne_true)] at h
      rw [List.cons_append, List.find?_cons_of_neg _ (by rw [hx]; exact Bool.false_ne_true)]
      exact ih h

/-- A search that succeeds on the prefix ignores the suffix. -/
theorem find?_append_of_some {α} {p : α → Bool} :
    ∀ {l1 l2 : List α} {a : α}, l1.find? p = some a → (l1 ++ l2).find? p = some a := by
  intro l1
  induction l1 with
  | nil => intro l2 a h; cases h
  | cons x xs ih =>
    intro l2 a h
    cases hx : p x with
    | true =>
      rw [List.find?_cons_of_pos _ hx] at h
      rw [List.cons_append, List.find?_cons_of_pos _ hx]
      exact h
    | false =>
      rw [List.find?_cons_of_neg _ (by rw [hx]; exact Bool.false_ne_true)] at h
      rw [List.cons_append, List.find?_cons_of_neg _ (by rw [hx]; exact Bool.false_ne_true)]
      exact ih h

/-- An upsert under a different chunk id does not affect a lookup. -/
theorem find?_upsert_other {row : DetectionRow} {c : String} (hne : row.chunk_id ≠ c) :
    ∀ l : List DetectionRow,
      (upsertRow (fun r => r.chunk_id == row.chunk_id) row l).find?
        (fun r => r.chunk_id == c) = l.find? (fun r => r.chunk_id == c) := by
  intro l
  unfold upsertRow
  by_cases hany : l.any (fun r => r.chunk_id == row.chunk_id) = true
  · rw [if_pos hany]
    clear hany
    induction l with
    | nil => rfl
    | cons x xs ih =>
      by_cases hx : (x.chunk_id == row.chunk_id) = true
      · have hxc : (x.chunk_id == c) = false := by
          have h2 := beq_iff_eq.mp hx
          simp [h2, hne]
        have hrowc : (row.chunk_id == c) = false := by simp [hne]
        simp only [List.map_cons, if_pos hx, List.find?_cons, hxc, hrowc]
        exact ih
      · simp only [List.map_cons, if_neg hx, List.find?_cons]
        cases hxc : (x.chunk_id == c) with
        | true => simp only [hxc]
        | false =>
          simp only [hxc]
          exact ih
  · rw [if_neg hany]
    cases hfind : l.find? (fun r => r.chunk_id == c) with
    | some a => exact find?_append_of_some hfind
    | none =>
      rw [find?_append_of_none hfind]
      have hrowc : (row.chunk_id == c) = false := by simp [hne]
      simp only [List.find?_singleton, hrowc, Bool.false_eq_true, if_false]

/-- Lookup after an upsert: the upserted row under its own chunk id, the old
table otherwise. -/
theorem get_detection_upsert (c : String) (row : DetectionRow) (db : DB) :
    get_detection c (upsert_detection row db) =
      if row.chunk_id = c then some row else get_detection c db := by
  by_cases hc : row.chunk_id = c
  · rw [if_pos hc]
    unfold get_detection upsert_detection
    subst hc
    unfold upsertRow
    by_cases hany : db.opinion_detection.any (fun r => r.chunk_id == row.chunk_id) = true
    · rw [if_pos hany]
      exact find?_map_upd_self db.opinion_detection row hany
    · rw [if_neg hany]
      have hnone : db.opinion_detection.find? (fun r => r.chunk_id == row.chunk_id) = none := by
        rw [List.find?_eq_none]
        intro x hx hpx
        exact absurd (List.any_eq_true.mpr ⟨x, hx, hpx⟩) hany
      rw [find?_append_of_none hnone]
      simp [List.find?_singleton]
  · rw [if_neg hc]
    unfold get_detection upsert_detection
    exact find?_upsert_other hc db.opinion_detection

/-- The batch loop does not touch rows of chunk ids it does not process. -/
theorem detectBatchLoop_untouched {oracle : DetectRequest → Except String DetectResponse}
    {now : String} :
    ∀ (items : List DetectRequest) (db : DB) (c : String),
      (∀ item ∈ items, item.chunk_id ≠ c) →
      get_detection c (detectBatchLoop oracle now items db).2 = get_detection c db := by
  intro items
  induction items with
  | nil => intro db c _; rfl
  | cons item rest ih =>
    intro db c hall
    simp only [detectBatchLoop]
    rcases hrec : detectBatchLoop oracle now rest
        (persist_detection now item (detect_single oracle item) db) with ⟨results, db2⟩
    have hr := ih (persist_detection now item (detect_single oracle item) db) c
      (fun i hi => hall i (List.mem_cons_of_mem _ hi))
    rw [hrec] at hr
    dsimp only
    rw [hr]
    unfold persist_detection
    rw [get_detection_upsert]
    rw [if_neg]
    exact hall item (List.mem_cons_self _ _)

/-- Every processed item's row is durably persisted by the batch loop. -/
theorem detectBatchLoop_persists {oracle : DetectRequest → Except String DetectResponse}
    {now : String} :
    ∀ (items : List DetectRequest) (db : DB),
      (items.map (fun i => i.chunk_id)).Nodup →
      ∀ item ∈ items,
        get_detection item.chunk_id (detectBatchLoop oracle now items db).2 =
          some (mkDetectionRow now item (detect_single oracle item)) := by
  intro items
  induction items with
  | nil => intro db _ item hitem; cases hitem
  | cons x rest ih =>
    intro db hnd item hitem
    simp only [List.map_cons, List.nodup_cons] at hnd
    simp only [detectBatchLoop]
    rcases hrec : detectBatchLoop oracle now rest
        (persist_detection now x (detect_single oracle x) db) with ⟨results, db2⟩
    dsimp only
    rcases List.mem_cons.mp hitem with hx | hx
    · subst hx
      have huntouched := @detectBatchLoop_untouched oracle now rest
        (persist_detection now item (detect_single oracle item) db) item.chunk_id
        (by
          intro i hi hcontra
          exact hnd.1 (by rw [← hcontra]; exact List.mem_map_of_mem (fun i => i.chunk_id) hi))
      rw [hrec] at huntouched
      rw [huntouched]
      unfold persist_detection
      rw [get_detection_upsert]
      exact if_pos rfl
    · have hr := ih (persist_detection now x (detect_single oracle x) db) hnd.2 item hx
      rw [hrec] at hr
      exact hr

/-- C7. Batch opinion-detection partial-failure isolation: the batch endpoint
is total (it returns, never raising) and yields exactly one result per item
in order — each item's `_detect_single` outcome (first conjunct); an item
whose oracle call fails after retries yields the zero-confidence safe default
(second conjunct); and, for distinct chunk ids, every item's result — the
safe default for failed items, the real result for the others — is persisted
in the store the batch leaves behind (third conjunct). -/
theorem detect_batch_isolation :
    ∀ (oracle : DetectRequest → Except String DetectResponse) (now : String)
      (items : List DetectRequest) (db : DB),
      (detect_opinion_batch oracle now items db).1.results =
        items.map (detect_single oracle) ∧
      (∀ (req : DetectRequest) (err : String), req.persons ≠ [] →
        oracle (truncateDetectReq req) = .error err →
        detect_single oracle req = ⟨false, [], [], Polarity.unclear, 0⟩) ∧
      ((items.map (fun i => i.chunk_id)).Nodup →
        ∀ item ∈ items,
          get_detection item.chunk_id (detect_opinion_batch oracle now items db).2 =
            some (mkDetectionRow now item (detect_single oracle item))) := by
  intro oracle now items db
  refine ⟨?_, ?_, ?_⟩
  · unfold detect_opinion_batch
    rcases hrec : detectBatchLoop oracle now items db with ⟨results, db2⟩
    have := @detectBatchLoop_results oracle now items db
    rw [hrec] at this
    exact this
  · intro req err hp h
    exact detect_single_failure hp h
  · intro hnd item hitem
    unfold detect_opinion_batch
    rcases hrec : detectBatchLoop oracle now items db with ⟨results, db2⟩
    have := @detectBatchLoop_persists oracle now items db hnd item hitem
    rw [hrec] at this
    exact this

/-- Witness for C7 on a concrete three-item batch whose second item's oracle
call fails: three results in order, the second the safe default, and the
second item's persisted row is the safe default row. -/
theorem detect_batch_isolation_witness :
    (detect_opinion_batch
      (fun r => if r.chunk_id == "c2" then Except.error "boom"
        else Except.ok ⟨true, ["p"], ["t"], Polarity.negative, 1⟩) "now"
      [⟨"c1", 0, 1, "t", ["p"]⟩, ⟨"c2", 0, 1, "t", ["p"]⟩, ⟨"c3", 0, 1, "t", ["p"]⟩]
      DB.empty).1.results =
      ([⟨"c1", 0, 1, "t", ["p"]⟩, ⟨"c2", 0, 1, "t", ["p"]⟩,
        ⟨"c3", 0, 1, "t", ["p"]⟩] : List DetectRequest).map
        (detect_single (fun r => if r.chunk_id == "c2" then Except.error "boom"
          else Except.ok ⟨true, ["p"], ["t"], Polarity.negative, 1⟩)) ∧
    detect_single (fun r => if r.chunk_id == "c2" then Except.error "boom"
        else Except.ok ⟨true, ["p"], ["t"], Polarity.negative, 1⟩)
      ⟨"c2", 0, 1, "t", ["p"]⟩ = ⟨false, [], [], Polarity.unclear, 0⟩ ∧
    get_detection "c2" (detect_opinion_batch
      (fun r => if r.chunk_id == "c2" then Except.error "boom"
        else Except.ok ⟨true, ["p"], ["t"], Polarity.negative, 1⟩) "now"
      [⟨"c1", 0, 1, "t", ["p"]⟩, ⟨"c2", 0, 1, "t", ["p"]⟩, ⟨"c3", 0, 1, "t", ["p"]⟩]
      DB.empty).2 =
      some (mkDetectionRow "now" ⟨"c2", 0, 1, "t", ["p"]⟩
        (detect_single (fun r => if r.chunk_id == "c2" then Except.error "boom"
          else Except.ok ⟨true, ["p"], ["t"], Polarity.negative, 1⟩)
          ⟨"c2", 0, 1, "t", ["p"]⟩)) :=
  have h := detect_batch_isolation
    (fun r => if r.chunk_id == "c2" then Except.error "boom"
      else Except.ok ⟨true, ["p"], ["t"], Polarity.negative, 1⟩) "now"
    [⟨"c1", 0, 1, "t", ["p"]⟩, ⟨"c2", 0, 1, "t", ["p"]⟩, ⟨"c3", 0, 1, "t", ["p"]⟩]
    DB.empty
  ⟨h.1,
   h.2.1 ⟨"c2", 0, 1, "t", ["p"]⟩ "boom" (by decide) (by decide),
   h.2.2 (by decide) ⟨"c2", 0, 1, "t", ["p"]⟩ (by decide)⟩
